import Mathlib

/-!
Shallow embedding of the call-transcripts ingestion and association subsystem.

Sources embedded here:
- `src/integrations/base/platformAdapter.ts` (normalized data model),
- `src/services/accountAssociation.ts` (AccountAssociationService),
- `src/database/repositories/transcriptRepository.ts` (repository, modelled as
  explicit state over the tables the verified operations touch),
- `src/lambdas/periodicGongSync.ts` (bulk sync loop),
- `src/lambdas/transcriptProcessor.ts` (storeTranscript),
- `src/integrations/gong/gongClient.ts` (listCalls pagination).

JavaScript numbers used as confidences are embedded as rationals; awaited
external effects (HTTP, database) are embedded as explicit state passing or as
oracle functions supplied to the embedded code; a thrown exception is an
`Except.error` carrying the message.
-/

namespace CallTranscripts

/-- Normalized attendee (platformAdapter.ts); optional JS fields are `Option`. -/
structure Attendee where
  email : String
  name : Option String := none
  role : Option String := none
  company : Option String := none
deriving Repr, DecidableEq

/-- Normalized call metadata (platformAdapter.ts). Dates are epoch milliseconds. -/
structure CallMetadata where
  id : String
  title : String
  startTime : Int
  endTime : Int
  duration : Int
  attendees : List Attendee
  recordingUrl : Option String := none
  platform : String
deriving Repr, DecidableEq

/-- Normalized transcript segment (platformAdapter.ts). -/
structure TranscriptSegment where
  speaker : String
  speakerEmail : Option String := none
  text : String
  startTime : Int
  endTime : Int
  confidence : Option ℚ := none
deriving Repr, DecidableEq

/-- Normalized transcript (platformAdapter.ts). -/
structure Transcript where
  callId : String
  segments : List TranscriptSegment
  fullText : String
  metadata : CallMetadata
deriving Repr, DecidableEq

/-- JS truthiness on an optional string: `undefined` and the empty string are
falsy, anything else is the string itself. -/
def truthyStr : Option String → Option String
  | none => none
  | some s => if s = "" then none else some s

/-- Split a character list at every occurrence of one character, keeping empty
chunks, as the JS String.prototype.split does with a one-character separator. -/
def splitCharsOn (c : Char) : List Char → List (List Char)
  | [] => [[]]
  | x :: xs =>
    if x = c then [] :: splitCharsOn c xs
    else
      match splitCharsOn c xs with
      | [] => [[x]]
      | w :: ws => (x :: w) :: ws

/-- JS `split` with a one-character separator. -/
def splitStrOn (c : Char) (s : String) : List String :=
  (splitCharsOn c s.data).map String.mk

/-- Split a character list at every character satisfying the test, as the JS
split on a whitespace character class; the empty chunks between and around
separators are dropped later by the length filters of the callers. -/
def splitCharsWhen (p : Char → Bool) : List Char → List (List Char)
  | [] => [[]]
  | x :: xs =>
    if p x then [] :: splitCharsWhen p xs
    else
      match splitCharsWhen p xs with
      | [] => [[x]]
      | w :: ws => (x :: w) :: ws

/-- JS `split` on a character-class test. -/
def splitStrWhen (p : Char → Bool) (s : String) : List String :=
  (splitCharsWhen p s.data).map String.mk

/-- JS `toLowerCase`, code point by code point. -/
def lowerStr (s : String) : String :=
  String.mk (s.data.map Char.toLower)

/-- JS `endsWith`. -/
def endsWithStr (post s : String) : Bool :=
  post.data.isSuffixOf s.data

/-- Domain part of an email, as computed by `email.split(@)[1]` in the source:
the second chunk of the split, absent when the email has no at-sign. -/
def emailDomain (email : String) : Option String :=
  (splitStrOn '@' email)[1]?

/-- Personal/webmail deny-list installed by the AccountAssociationService
constructor (accountAssociation.ts, `internalDomains`). -/
def internalDomains : List String :=
  ["gmail.com", "yahoo.com", "hotmail.com", "outlook.com", "icloud.com",
   "me.com", "aol.com", "protonmail.com", "tutanota.com"]

/-- `extractExternalDomains` (accountAssociation.ts): map each attendee to its
email domain, drop missing or empty domains and domains on the deny-list
(the deny-list membership test lower-cases the domain first). -/
def extractExternalDomains (attendees : List Attendee) : List String :=
  attendees.filterMap (fun a =>
    match emailDomain a.email with
    | none => none
    | some d =>
      if d = "" then none
      else if internalDomains.contains (lowerStr d) then none
      else some d)

/-- Rule type of an AccountAssociationRule (accountAssociation.ts). -/
inductive RuleType where
  | domain
  | email_pattern
  | title_pattern
  | manual
deriving Repr, DecidableEq

/-- AccountAssociationRule (accountAssociation.ts). `pattern` and `accountId`
are optional in the TS interface. -/
structure AccountAssociationRule where
  id : String
  name : String
  type : RuleType
  pattern : Option String := none
  accountId : Option String := none
  priority : Int
  active : Bool
deriving Repr, DecidableEq

/-- AccountAssociationResult (accountAssociation.ts). -/
structure AccountAssociationResult where
  accountId : String
  confidence : ℚ
  rule : String
  suggestions : Option (List String) := none
deriving Repr, DecidableEq

/-- `evaluateDomainRule`: guarded by JS truthiness of `pattern` and
`accountId`; fires when some extracted external domain equals the pattern
case-insensitively, with confidence 0.9. -/
def evaluateDomainRule (rule : AccountAssociationRule) (t : Transcript) :
    Option AccountAssociationResult :=
  match truthyStr rule.pattern, truthyStr rule.accountId with
  | some p, some aid =>
    let domains := extractExternalDomains t.metadata.attendees
    match domains.find? (fun d => lowerStr d = lowerStr p) with
    | some _ => some { accountId := aid, confidence := 9/10, rule := rule.name }
    | none => none
  | _, _ => none

/-- `evaluateEmailPatternRule`: the pattern is a case-insensitive regular
expression tested against attendee emails; the regular-expression engine is an
oracle `regexTest pattern input`. Confidence 0.8. -/
def evaluateEmailPatternRule (regexTest : String → String → Bool)
    (rule : AccountAssociationRule) (t : Transcript) :
    Option AccountAssociationResult :=
  match truthyStr rule.pattern, truthyStr rule.accountId with
  | some p, some aid =>
    match t.metadata.attendees.find? (fun a => regexTest p a.email) with
    | some _ => some { accountId := aid, confidence := 8/10, rule := rule.name }
    | none => none
  | _, _ => none

/-- `evaluateTitlePatternRule`: case-insensitive regular expression tested
against the call title. Confidence 0.7. -/
def evaluateTitlePatternRule (regexTest : String → String → Bool)
    (rule : AccountAssociationRule) (t : Transcript) :
    Option AccountAssociationResult :=
  match truthyStr rule.pattern, truthyStr rule.accountId with
  | some p, some aid =>
    if regexTest p t.metadata.title then
      some { accountId := aid, confidence := 7/10, rule := rule.name }
    else none
  | _, _ => none

/-- `evaluateRule` (accountAssociation.ts): dispatch on the rule type; a manual
rule fires whenever its accountId is truthy, with confidence 1.0. -/
def evaluateRule (regexTest : String → String → Bool)
    (rule : AccountAssociationRule) (t : Transcript) :
    Option AccountAssociationResult :=
  match rule.type with
  | .domain => evaluateDomainRule rule t
  | .email_pattern => evaluateEmailPatternRule regexTest rule t
  | .title_pattern => evaluateTitlePatternRule regexTest rule t
  | .manual =>
    match truthyStr rule.accountId with
    | some aid => some { accountId := aid, confidence := 1, rule := rule.name }
    | none => none

/-- Insert a rule into a list sorted by descending priority, before the first
element of lower-or-equal priority. `Array.prototype.sort` with comparator
`b.priority - a.priority` is a stable descending sort per the ECMAScript
specification; a stable insertion sort denotes it exactly. -/
def insertByPriority (r : AccountAssociationRule) :
    List AccountAssociationRule → List AccountAssociationRule
  | [] => [r]
  | y :: ys =>
    if r.priority ≥ y.priority then r :: y :: ys else y :: insertByPriority r ys

/-- Stable sort by descending priority (see `insertByPriority`). -/
def sortByPriorityDesc (rules : List AccountAssociationRule) :
    List AccountAssociationRule :=
  rules.foldr insertByPriority []

/-- `applyCustomRules` (accountAssociation.ts): keep active rules, sort by
descending priority, return the result of the first rule that fires. -/
def applyCustomRules (regexTest : String → String → Bool)
    (customRules : List AccountAssociationRule) (t : Transcript) :
    Option AccountAssociationResult :=
  (sortByPriorityDesc (customRules.filter (·.active))).findSome?
    (fun rule => evaluateRule regexTest rule t)

/-- One step of the reduce that builds the domain-frequency object
(accountAssociation.ts, `domainCounts`): JS object keys keep insertion order,
so a new domain is appended and an existing one is bumped in place. -/
def bumpCount (acc : List (String × Nat)) (d : String) : List (String × Nat) :=
  match acc with
  | [] => [(d, 1)]
  | (k, v) :: rest => if k = d then (k, v + 1) :: rest else (k, v) :: bumpCount rest d

/-- Domain-frequency entries in first-occurrence order, as produced by
`domains.reduce(...)` followed by `Object.entries`. -/
def domainCounts (domains : List String) : List (String × Nat) :=
  domains.foldl bumpCount []

/-- Insert an entry into a list sorted by descending count, before the first
entry of lower-or-equal count (stable, like the JS sort with comparator
subtracting counts). -/
def insertByCount (e : String × Nat) : List (String × Nat) → List (String × Nat)
  | [] => [e]
  | y :: ys => if e.2 ≥ y.2 then e :: y :: ys else y :: insertByCount e ys

/-- Stable sort by descending count (see `insertByCount`). -/
def sortByCountDesc (l : List (String × Nat)) : List (String × Nat) :=
  l.foldr insertByCount []

/-- The `[0]` of the sorted entries: the primary domain with its occurrence
count, absent only when there are no external domains. -/
def primaryEntry (domains : List String) : Option (String × Nat) :=
  (sortByCountDesc (domainCounts domains)).head?

/-- Account row (transcriptRepository.ts, `AccountRecord`); metadata carried as
a key-value list, timestamp columns not modelled. -/
structure AccountRecord where
  id : String
  name : String
  domain : String
  metadata : List (String × String) := []
deriving Repr, DecidableEq

/-- Transcript row as seen through TranscriptRepository, restricted to the
columns the verified operations read or write. -/
structure TranscriptRecord where
  id : String
  account_id : String
  platform : String
  title : String
  full_text : String
deriving Repr, DecidableEq

/-- Relational store behind TranscriptRepository. Fresh account ids come from a
counter standing in for the database-generated id. -/
structure RepoState where
  accounts : List AccountRecord
  transcripts : List TranscriptRecord
  nextAccountId : Nat
deriving Repr, DecidableEq

/-- `getAccountByDomain` (transcriptRepository.ts): select the row whose domain
column equals the argument exactly (SQL text equality is case-sensitive). -/
def getAccountByDomain (s : RepoState) (domain : String) : Option AccountRecord :=
  s.accounts.find? (fun a => a.domain = domain)

/-- `createAccount` (transcriptRepository.ts): insert a new account row and
return it; the id is database-generated. -/
def createAccount (s : RepoState) (name domain : String)
    (metadata : List (String × String)) : AccountRecord × RepoState :=
  let a : AccountRecord :=
    { id := "acct-" ++ toString s.nextAccountId, name := name, domain := domain,
      metadata := metadata }
  (a, { s with accounts := s.accounts ++ [a], nextAccountId := s.nextAccountId + 1 })

/-- Capitalize the first character, as `charAt(0).toUpperCase() + slice(1)`. -/
def capitalizeFirst (s : String) : String :=
  match s.data with
  | [] => ""
  | c :: rest => String.mk (c.toUpper :: rest)

/-- `generateAccountName` (accountAssociation.ts): company of the first
attendee on the primary domain with a truthy company field, else the
capitalized first label of the domain. -/
def generateAccountName (domain : String) (t : Transcript) : String :=
  match t.metadata.attendees.findSome? (fun a =>
      if endsWithStr ("@" ++ domain) a.email then truthyStr a.company else none) with
  | some company => company
  | none => capitalizeFirst ((splitStrOn '.' domain).headD "")

/-- `applyDomainBasedAssociation` (accountAssociation.ts): count external
domains, pick the most frequent (JS object-key insertion order plus a stable
sort breaks ties by first occurrence), compute the dominance confidence, then
reuse the account with that exact domain or create one. -/
def applyDomainBasedAssociation (s : RepoState) (t : Transcript) :
    Option AccountAssociationResult × RepoState :=
  let domains := extractExternalDomains t.metadata.attendees
  if domains.isEmpty then (none, s)
  else
    match primaryEntry domains with
    | none => (none, s)
    | some (primaryDomain, count) =>
      let confidence : ℚ := min (9/10) ((count : ℚ) / (domains.length : ℚ) + 3/10)
      let suggestions := domains.filter (fun d => d ≠ primaryDomain)
      match getAccountByDomain s primaryDomain with
      | some account =>
        (some { accountId := account.id, confidence := confidence,
                rule := "domain-based", suggestions := some suggestions }, s)
      | none =>
        let (account, s') := createAccount s (generateAccountName primaryDomain t)
          primaryDomain
          [("source", "auto-created"), ("firstTranscriptId", t.callId),
           ("createdFromDomain", primaryDomain)]
        (some { accountId := account.id, confidence := confidence,
                rule := "domain-based", suggestions := some suggestions }, s')

/-- `createFallbackAccount` (accountAssociation.ts). -/
def createFallbackAccount (s : RepoState) (t : Transcript) :
    AccountRecord × RepoState :=
  createAccount s ("Unknown (" ++ t.callId ++ ")") ("unknown-" ++ t.callId)
    [("source", "fallback"), ("transcriptId", t.callId), ("needsReview", "true")]

/-- First character is an ASCII capital, as the regular expression caret A-Z. -/
def startsWithCapital (w : String) : Bool :=
  match w.data with
  | [] => false
  | c :: _ => 'A' ≤ c && c ≤ 'Z'

/-- `generateSuggestions` (accountAssociation.ts): truthy attendee companies,
then title words longer than two characters starting with a capital, first
occurrences kept, top five. -/
def generateSuggestions (t : Transcript) : List String :=
  let companies := t.metadata.attendees.filterMap (fun a => truthyStr a.company)
  let titleWords := (splitStrWhen (fun c => c.isWhitespace) t.metadata.title).filter
    (fun w => w.length > 2 && startsWithCapital w)
  ((companies ++ titleWords).eraseDups).take 5

/-- `determineAccountAssociation` (accountAssociation.ts): custom rules first,
then the domain heuristic, then the fallback account with confidence 0.3. -/
def determineAccountAssociation (regexTest : String → String → Bool)
    (customRules : List AccountAssociationRule) (s : RepoState) (t : Transcript) :
    AccountAssociationResult × RepoState :=
  match applyCustomRules regexTest customRules t with
  | some customResult => (customResult, s)
  | none =>
    match applyDomainBasedAssociation s t with
    | (some domainResult, s') => (domainResult, s')
    | (none, s') =>
      let (fallbackAccount, s'') := createFallbackAccount s' t
      ({ accountId := fallbackAccount.id, confidence := 3/10, rule := "fallback",
         suggestions := some (generateSuggestions t) }, s'')

/-- Persisted audit record the specification requires for reassociation. -/
structure AuditRecord where
  transcriptId : String
  oldAccountId : String
  newAccountId : String
  reason : String
  actor : Option String
deriving Repr, DecidableEq

/-- State visible to `reassociateTranscript`: the repository, the persisted
audit-record store the specification talks about (carried so audit-trail
properties can be stated), and the process console log. -/
structure ServiceState where
  repo : RepoState
  auditLog : List AuditRecord
  consoleLog : List String
deriving Repr, DecidableEq

/-- `getTranscriptById` (transcriptRepository.ts): select by id, none when the
row is absent. -/
def getTranscriptById (s : RepoState) (transcriptId : String) :
    Option TranscriptRecord :=
  s.transcripts.find? (fun t => t.id = transcriptId)

/-- `updateTranscript` restricted to the account pointer, as called from
`reassociateTranscript`: set account_id on the row with the given id. -/
def updateTranscriptAccount (s : RepoState) (transcriptId newAccountId : String) :
    RepoState :=
  { s with transcripts := s.transcripts.map (fun t =>
      if t.id = transcriptId then { t with account_id := newAccountId } else t) }

/-- `reassociateTranscript` (accountAssociation.ts): look the transcript up,
throw when absent, update the account pointer, then log the change to the
console. No write to any audit store appears in the source. -/
def reassociateTranscript (s : ServiceState)
    (transcriptId newAccountId reason : String) (_userId : Option String) :
    Except String ServiceState :=
  match getTranscriptById s.repo transcriptId with
  | none => .error ("Transcript " ++ transcriptId ++ " not found")
  | some t =>
    let oldAccountId := t.account_id
    let repo' := updateTranscriptAccount s.repo transcriptId newAccountId
    .ok { s with
      repo := repo',
      consoleLog := s.consoleLog ++
        ["Transcript " ++ transcriptId ++ " reassociated from " ++
         oldAccountId ++ " to " ++ newAccountId ++ ". Reason: " ++ reason] }

/-- Per-call outcome status (periodicGongSync.ts, `SyncResult`). -/
inductive SyncStatus where
  | success
  | error
  | skipped
deriving Repr, DecidableEq

/-- Per-call detail entry (periodicGongSync.ts, `SyncResult`). -/
structure SyncResult where
  callId : String
  status : SyncStatus
  title : Option String := none
  error : Option String := none
  reason : Option String := none
deriving Repr, DecidableEq

/-- Summary block of the lambda result (periodicGongSync.ts). -/
structure SyncSummary where
  total : Nat
  processed : Nat
  skipped : Nat
  errors : Nat
deriving Repr, DecidableEq

/-- Outcomes of the awaited operations inside the per-call try block of the
periodic sync loop, one oracle per awaited call; an `Except.error` is a thrown
exception carrying its message. -/
structure CallStepOutcomes where
  getExisting : Except String (Option TranscriptRecord)
  fetchTranscript : Except String Transcript
  associate : Except String AccountAssociationResult
  persist : Except String Unit

/-- Body of the per-call loop iteration of the periodic Gong sync handler:
the existence check, transcript fetch, association, and persist, with the
surrounding try/catch turning any thrown error into an error outcome. -/
def processCall (call : CallMetadata) (env : CallStepOutcomes) : SyncResult :=
  match env.getExisting with
  | .error e => { callId := call.id, status := .error, error := some e,
                  title := some call.title }
  | .ok (some _) => { callId := call.id, status := .skipped,
                      reason := some "already_exists", title := some call.title }
  | .ok none =>
    match env.fetchTranscript with
    | .error e => { callId := call.id, status := .error, error := some e,
                    title := some call.title }
    | .ok _transcript =>
      match env.associate with
      | .error e => { callId := call.id, status := .error, error := some e,
                      title := some call.title }
      | .ok _assoc =>
        match env.persist with
        | .error e => { callId := call.id, status := .error, error := some e,
                        title := some call.title }
        | .ok _ => { callId := call.id, status := .success,
                     title := some call.title }

/-- Mutable `results` record of the handler loop (periodicGongSync.ts). -/
structure BatchResults where
  processed : Nat
  skipped : Nat
  errors : Nat
  details : List SyncResult
deriving Repr, DecidableEq

/-- One loop iteration updates the counters and pushes the detail entry. -/
def recordResult (acc : BatchResults) (r : SyncResult) : BatchResults :=
  match r.status with
  | .success => { acc with processed := acc.processed + 1, details := acc.details ++ [r] }
  | .skipped => { acc with skipped := acc.skipped + 1, details := acc.details ++ [r] }
  | .error => { acc with errors := acc.errors + 1, details := acc.details ++ [r] }

/-- The per-call loop and summary of the periodic Gong sync handler
(periodicGongSync.ts, lines 72 to 148): iterate over the discovered calls,
record each outcome, and return the summary over the whole list. -/
def periodicSyncHandler (calls : List CallMetadata)
    (env : CallMetadata → CallStepOutcomes) : SyncSummary × List SyncResult :=
  let results := calls.foldl
    (fun acc call => recordResult acc (processCall call (env call)))
    { processed := 0, skipped := 0, errors := 0, details := [] }
  ({ total := calls.length, processed := results.processed,
     skipped := results.skipped, errors := results.errors }, results.details)

/-- Transcript row of the Supabase transcripts table as written by
transcriptProcessor.ts; timestamp columns are ambient-clock data and are not
modelled, the AI content is an opaque optional blob. -/
structure SupaTranscriptRow where
  id : String
  account_id : String
  platform : String
  title : String
  duration : Int
  full_text : String
  recording_url : Option String
  ai_content : Option String
  source : String
deriving Repr, DecidableEq

/-- Segment row of the transcript_segments table (transcriptProcessor.ts). -/
structure SegmentRow where
  transcript_id : String
  sequence_number : Nat
  speaker : String
  speaker_email : Option String
  text : String
  start_time : Int
  end_time : Int
  confidence : Option ℚ
deriving Repr, DecidableEq

/-- Supabase tables touched by `storeTranscript`. -/
structure SupaState where
  transcripts : List SupaTranscriptRow
  transcript_segments : List SegmentRow
deriving Repr, DecidableEq

/-- Postgres error surfaced by the Supabase client. -/
structure PgError where
  code : String
  message : String
deriving Repr, DecidableEq

/-- Insert into the transcripts table; the primary key on id makes an insert
whose id is already present fail with Postgres error code 23505. -/
def insertTranscriptRow (s : SupaState) (row : SupaTranscriptRow) :
    Except PgError SupaState :=
  if s.transcripts.any (fun r => r.id = row.id) then
    .error { code := "23505", message := "duplicate key value" }
  else
    .ok { s with transcripts := s.transcripts ++ [row] }

/-- The update issued on the duplicate-key path of `storeTranscript`: set
full_text and ai_content on every row matching the id (an update filtered by
eq on id succeeds even when no row matches). -/
def updateTranscriptRow (s : SupaState) (transcriptId fullText : String)
    (aiContent : Option String) : SupaState :=
  { s with transcripts := s.transcripts.map (fun r =>
      if r.id = transcriptId then
        { r with full_text := fullText, ai_content := aiContent }
      else r) }

/-- Delete all segment rows of one transcript (the pre-insert cleanup). -/
def deleteSegments (s : SupaState) (transcriptId : String) : SupaState :=
  { s with transcript_segments :=
      s.transcript_segments.filter (fun r => r.transcript_id ≠ transcriptId) }

/-- Append a batch of segment rows. -/
def insertSegments (s : SupaState) (rows : List SegmentRow) : SupaState :=
  { s with transcript_segments := s.transcript_segments ++ rows }

/-- The batch loop of `storeTranscript`: slices of one hundred rows inserted in
order (List.toChunks 100 yields exactly the slices the for loop takes). -/
def insertSegmentsBatched (s : SupaState) (rows : List SegmentRow) : SupaState :=
  (rows.toChunks 100).foldl insertSegments s

/-- `storeTranscript` (transcriptProcessor.ts, lines 162 to 252): insert the
transcript row; on a duplicate-key error convert to an update of the existing
row; on any other insert error throw; then replace the segment rows. -/
def storeTranscript (s : SupaState) (t : Transcript) (aiContent : Option String)
    (accountId : String) (msgSource : String) : Except String SupaState :=
  let row : SupaTranscriptRow :=
    { id := t.callId, account_id := accountId, platform := t.metadata.platform,
      title := t.metadata.title, duration := t.metadata.duration,
      full_text := t.fullText, recording_url := t.metadata.recordingUrl,
      ai_content := aiContent, source := msgSource }
  let afterInsert : Except String SupaState :=
    match insertTranscriptRow s row with
    | .ok s1 => .ok s1
    | .error e =>
      if e.code = "23505" then
        .ok (updateTranscriptRow s t.callId t.fullText aiContent)
      else
        .error ("Failed to store transcript: " ++ e.message)
  match afterInsert with
  | .error e => .error e
  | .ok s1 =>
    if t.segments.isEmpty then .ok s1
    else
      let segRows : List SegmentRow := t.segments.enum.map (fun p =>
        { transcript_id := t.callId, sequence_number := p.1,
          speaker := p.2.speaker, speaker_email := p.2.speakerEmail,
          text := p.2.text, start_time := p.2.startTime,
          end_time := p.2.endTime, confidence := p.2.confidence })
      .ok (insertSegmentsBatched (deleteSegments s1 t.callId) segRows)

/-- One page of the Gong calls listing; `calls` is none when the response body
has no calls array (the unexpected-structure branch), `cursor` is the
records.cursor field of the response. -/
structure GongPage where
  calls : Option (List CallMetadata)
  cursor : Option String
deriving Repr

/-- JS truthiness of the pagination cursor: absent or empty is falsy. -/
def cursorTruthy : Option String → Bool
  | none => false
  | some c => c ≠ ""

/-- `options.limit || 100` (gongClient.ts): zero and absent both default. -/
def effectiveLimit : Option Nat → Nat
  | none => 100
  | some 0 => 100
  | some (n + 1) => n + 1

/-- The do-while pagination loop of `GongClient.listCalls` (gongClient.ts,
lines 227 to 266). The vendor is the oracle `fetch cursor pageLimit`; a fetch
error is rethrown, aborting the listing and discarding the calls gathered so
far. Fuel bounds the model recursion; the loop itself stops when the limit is
reached or the cursor is falsy. -/
def listCallsGo (fetch : Option String → Nat → Except String GongPage)
    (limit : Nat) : Nat → Option String → List CallMetadata →
    Except String (List CallMetadata)
  | 0, _, _ => .error "pagination did not terminate"
  | fuel + 1, cursor, calls =>
    match fetch cursor (min (limit - calls.length) 100) with
    | .error e => .error e
    | .ok page =>
      match page.calls with
      | none => .ok calls
      | some pageCalls =>
        let calls1 := calls ++ pageCalls
        if calls1.length ≥ limit then .ok calls1
        else if cursorTruthy page.cursor then
          listCallsGo fetch limit fuel page.cursor calls1
        else .ok calls1

/-- `GongClient.listCalls`: run the pagination loop from no cursor with the
defaulted limit. -/
def listCalls (fetch : Option String → Nat → Except String GongPage)
    (limitOpt : Option Nat) (fuel : Nat) : Except String (List CallMetadata) :=
  listCallsGo fetch (effectiveLimit limitOpt) fuel none []

/-! Auxiliary specification-side definitions used by the theorems. -/

/-- Fixed confidence constant per rule type, as the specification lists them. -/
def ruleConfidence : RuleType → ℚ
  | .manual => 1
  | .domain => 9/10
  | .email_pattern => 8/10
  | .title_pattern => 7/10

/-- Primary domain the heuristic would pick for a transcript. -/
def primaryDomainOf (t : Transcript) : Option String :=
  (primaryEntry (extractExternalDomains t.metadata.attendees)).map Prod.fst

/-- First entry of maximal count, earliest entry winning ties; proved below to
be the head of the stable descending sort. -/
def firstMax : List (String × Nat) → Option (String × Nat)
  | [] => none
  | e :: es =>
    match firstMax es with
    | none => some e
    | some m => if m.2 > e.2 then some m else some e

/-- Count recorded for a key in a frequency-entry list, zero when absent, as
`acc[domain] || 0` reads the JS object. -/
def lookupCount : List (String × Nat) → String → Nat
  | [], _ => 0
  | e :: L, k => if e.1 = k then e.2 else lookupCount L k

/-! Concrete fixtures for witnesses and counterexamples. -/

/-- Attendee with only an email, as the adapters commonly produce. -/
def mkAtt (e : String) : Attendee := { email := e }

/-- Call metadata fixture with the given id, title and attendees. -/
def mkMeta (i ti : String) (atts : List Attendee) : CallMetadata :=
  { id := i, title := ti, startTime := 0, endTime := 0, duration := 0,
    attendees := atts, platform := "gong" }

/-- Transcript fixture with the given id, title and attendees. -/
def mkTranscript (i ti : String) (atts : List Attendee) : Transcript :=
  { callId := i, segments := [], fullText := "", metadata := mkMeta i ti atts }

/-- One gmail attendee and one acme attendee (the domain-exclusion example). -/
def exTranscriptGmailAcme : Transcript :=
  mkTranscript "call-1" "Demo" [mkAtt "a@gmail.com", mkAtt "b@acme.com"]

/-- Two attendees whose domains differ only in letter case. -/
def exTranscriptMixedCase : Transcript :=
  mkTranscript "call-2" "Demo" [mkAtt "x@Acme.com", mkAtt "y@acme.com"]

/-- Repository holding one account keyed by the lower-case domain. -/
def exRepoLowerAcme : RepoState :=
  { accounts := [{ id := "acct-low", name := "Acme", domain := "acme.com" }],
    transcripts := [], nextAccountId := 0 }

/-- Empty repository. -/
def exRepoEmpty : RepoState :=
  { accounts := [], transcripts := [], nextAccountId := 0 }

/-- Active domain rule whose pattern is the deny-listed domain gmail.com. -/
def exGmailDomainRule : AccountAssociationRule :=
  { id := "r-g", name := "gmail-rule", type := .domain,
    pattern := some "gmail.com", accountId := some "acct-X",
    priority := 5, active := true }

/-- Active domain rule targeting acme.com in mixed case. -/
def exAcmeDomainRule : AccountAssociationRule :=
  { id := "r-a", name := "acme-rule", type := .domain,
    pattern := some "ACME.com", accountId := some "acct-A",
    priority := 5, active := true }

/-- Active manual rule with a target account, higher priority. -/
def exManualRule : AccountAssociationRule :=
  { id := "r-m", name := "pin-rule", type := .manual,
    accountId := some "acct-M", priority := 10, active := true }

/-- Segment fixture for the store fixtures. -/
def exStoredSegment : TranscriptSegment :=
  { speaker := "s", text := "hello", startTime := 0, endTime := 1 }

/-- Transcript fixture with the single segment above. -/
def exStoredTranscript : Transcript :=
  { callId := "call-9", segments := [exStoredSegment], fullText := "hello",
    metadata := mkMeta "call-9" "Sync demo" [] }

/-- Persisted transcript row pointing at an old account. -/
def exOldRecord : TranscriptRecord :=
  { id := "t1", account_id := "acc-old", platform := "gong",
    title := "T", full_text := "x" }

/-- Service state holding the one transcript above and an empty audit store. -/
def exServiceState : ServiceState :=
  { repo := { accounts := [], nextAccountId := 0, transcripts := [exOldRecord] },
    auditLog := [], consoleLog := [] }

/-- Vendor oracle returning one empty page with no cursor. -/
def exFetchEmpty : Option String → Nat → Except String GongPage :=
  fun _ _ => .ok { calls := some [], cursor := none }

/-- Call-metadata fixture for pagination runs. -/
def exCallMeta : CallMetadata := mkMeta "g1" "Call" []

/-- Domain occurrence list with a tie between b.com and a.com, b.com seen
first. -/
def exTieDomains : List String :=
  ["b.com", "a.com", "a.com", "b.com", "c.com"]

/-- Vendor oracle always serving a full page of the requested size with a
cursor to the next page. -/
def exFetchPages : Option String → Nat → Except String GongPage :=
  fun _ n => .ok { calls := some (List.replicate n exCallMeta),
                   cursor := some "next" }

/-- Service state after reassociating the one transcript to acc-new: the
pointer is updated and a console line is appended, but the persisted audit
store is still empty. -/
def exReassocState : ServiceState :=
  { repo := { accounts := [], nextAccountId := 0,
              transcripts := [{ exOldRecord with account_id := "acc-new" }] },
    auditLog := [],
    consoleLog :=
      ["Transcript t1 reassociated from acc-old to acc-new. Reason: wrong account"] }

/-- Transcript whose only attendee is on a deny-listed domain. -/
def exTranscriptGmailOnly : Transcript :=
  mkTranscript "call-4" "Demo" [mkAtt "a@gmail.com"]

/-- Second transcript resolving to the same acme.com domain. -/
def exTranscriptAcme2 : Transcript :=
  mkTranscript "call-3" "Demo" [mkAtt "c@acme.com"]

/-- The acme account auto-created by the first resolution. -/
def exAcmeAccount : AccountRecord :=
  { id := "acct-0", name := "Acme", domain := "acme.com",
    metadata := [("source", "auto-created"),
                 ("firstTranscriptId", "call-1"),
                 ("createdFromDomain", "acme.com")] }

/-- Repository after the first resolution auto-created the acme account. -/
def exRepoAfterAcme : RepoState :=
  { accounts := [exAcmeAccount], transcripts := [], nextAccountId := 1 }

/-- Association result shared by both acme resolutions. -/
def exAcmeResult : AccountAssociationResult :=
  { accountId := "acct-0", confidence := 9/10, rule := "domain-based",
    suggestions := some [] }

/-! Helper lemmas. -/

theorem recordResult_spec (acc : BatchResults) (r : SyncResult) :
    (recordResult acc r).processed + (recordResult acc r).skipped +
      (recordResult acc r).errors =
      acc.processed + acc.skipped + acc.errors + 1 ∧
    (recordResult acc r).details = acc.details ++ [r] := by
  cases h : r.status <;> simp [recordResult, h] <;> omega

theorem batchLoop_spec (f : CallMetadata → SyncResult) :
    ∀ (calls : List CallMetadata) (acc : BatchResults),
      (calls.foldl (fun a c => recordResult a (f c)) acc).processed +
        (calls.foldl (fun a c => recordResult a (f c)) acc).skipped +
        (calls.foldl (fun a c => recordResult a (f c)) acc).errors =
        acc.processed + acc.skipped + acc.errors + calls.length ∧
      (calls.foldl (fun a c => recordResult a (f c)) acc).details =
        acc.details ++ calls.map f
  | [], acc => by simp
  | c :: cs, acc => by
    have ih := batchLoop_spec f cs (recordResult acc (f c))
    have hr := recordResult_spec acc (f c)
    refine ⟨?_, ?_⟩
    · simp only [List.foldl_cons, List.length_cons]
      rw [ih.1, hr.1]
      omega
    · simp only [List.foldl_cons, List.map_cons]
      rw [ih.2, hr.2]
      simp

/-- C1: for a bulk sync over a list of discovered calls, every call lands in
exactly one of the three outcome categories, so processed + skipped + errors
equals the number of calls (which is the reported total), the detail list has
exactly one entry per call in order, and each entry depends only on that
call's own processing outcomes, so an exception recorded as an error outcome
for one call leaves every other call's processing unaffected. -/
theorem periodicSyncHandler_accounting (calls : List CallMetadata)
    (env : CallMetadata → CallStepOutcomes) :
    (periodicSyncHandler calls env).1.processed +
      (periodicSyncHandler calls env).1.skipped +
      (periodicSyncHandler calls env).1.errors = calls.length ∧
    (periodicSyncHandler calls env).1.total = calls.length ∧
    (periodicSyncHandler calls env).2 =
      calls.map (fun c => processCall c (env c)) := by
  have h := batchLoop_spec (fun c => processCall c (env c)) calls
    { processed := 0, skipped := 0, errors := 0, details := [] }
  refine ⟨?_, rfl, ?_⟩
  · simpa using h.1
  · simpa using h.2

theorem insertSegmentsBatched_transcripts (s : SupaState)
    (rows : List SegmentRow) :
    (insertSegmentsBatched s rows).transcripts = s.transcripts := by
  unfold insertSegmentsBatched
  generalize rows.toChunks 100 = chunks
  induction chunks generalizing s with
  | nil => rfl
  | cons c cs ih => simpa [insertSegments] using ih (insertSegments s c)

theorem deleteSegments_transcripts (s : SupaState) (tid : String) :
    (deleteSegments s tid).transcripts = s.transcripts := rfl

theorem storeTranscript_ok_transcripts (s s1 : SupaState) (t : Transcript)
    (ai : Option String) (accId src : String)
    (h : storeTranscript s t ai accId src = .ok s1) :
    ∃ s0 : SupaState,
      (insertTranscriptRow s
          { id := t.callId, account_id := accId, platform := t.metadata.platform,
            title := t.metadata.title, duration := t.metadata.duration,
            full_text := t.fullText, recording_url := t.metadata.recordingUrl,
            ai_content := ai, source := src } = .ok s0 ∨
        (insertTranscriptRow s
          { id := t.callId, account_id := accId, platform := t.metadata.platform,
            title := t.metadata.title, duration := t.metadata.duration,
            full_text := t.fullText, recording_url := t.metadata.recordingUrl,
            ai_content := ai, source := src }).isOk = false ∧
          s0 = updateTranscriptRow s t.callId t.fullText ai) ∧
      s1.transcripts = s0.transcripts := by
  unfold storeTranscript at h
  dsimp only at h
  split at h
  next e heq => exact absurd h (by simp)
  next s0 heq =>
    refine ⟨s0, ?_, ?_⟩
    · split at heq
      next s0b hins =>
        left
        cases heq
        exact hins
      next e2 hins =>
        split at heq
        next hcode =>
          right
          cases heq
          exact ⟨by rw [hins]; rfl, rfl⟩
        next hcode => exact absurd heq (by simp)
    · split at h
      · cases h
        rfl
      · cases h
        rw [insertSegmentsBatched_transcripts, deleteSegments_transcripts]

theorem storeTranscript_run (s : SupaState) (t : Transcript) (ai : Option String)
    (accId src : String) :
    ∃ s1, storeTranscript s t ai accId src = .ok s1 ∧
      ((s.transcripts.any (fun r => r.id = t.callId) = false ∧
        s1.transcripts = s.transcripts ++
          [{ id := t.callId, account_id := accId, platform := t.metadata.platform,
             title := t.metadata.title, duration := t.metadata.duration,
             full_text := t.fullText, recording_url := t.metadata.recordingUrl,
             ai_content := ai, source := src }]) ∨
       (s.transcripts.any (fun r => r.id = t.callId) = true ∧
        s1.transcripts =
          (updateTranscriptRow s t.callId t.fullText ai).transcripts)) := by
  unfold storeTranscript
  dsimp only
  by_cases hany : s.transcripts.any (fun r => r.id = t.callId) = true
  · rw [insertTranscriptRow, if_pos hany]
    dsimp only
    rw [if_pos rfl]
    dsimp only
    by_cases hseg : t.segments.isEmpty = true
    · rw [if_pos hseg]
      exact ⟨_, rfl, Or.inr ⟨hany, rfl⟩⟩
    · rw [if_neg hseg]
      refine ⟨_, rfl, Or.inr ⟨hany, ?_⟩⟩
      rw [insertSegmentsBatched_transcripts, deleteSegments_transcripts]
  · rw [insertTranscriptRow, if_neg hany]
    dsimp only
    by_cases hseg : t.segments.isEmpty = true
    · rw [if_pos hseg]
      exact ⟨_, rfl, Or.inl ⟨Bool.eq_false_iff.mpr hany, rfl⟩⟩
    · rw [if_neg hseg]
      refine ⟨_, rfl, Or.inl ⟨Bool.eq_false_iff.mpr hany, ?_⟩⟩
      rw [insertSegmentsBatched_transcripts, deleteSegments_transcripts]

theorem updateTranscriptRow_countP (s : SupaState) (tid ft : String)
    (ai : Option String) :
    (updateTranscriptRow s tid ft ai).transcripts.countP (fun r => r.id = tid) =
      s.transcripts.countP (fun r => r.id = tid) := by
  unfold updateTranscriptRow
  dsimp only
  rw [List.countP_map]
  refine List.countP_congr ?_
  intro r _
  by_cases h : r.id = tid <;> simp [h]

/-- C2: running the single-call store twice for the same call id leaves
exactly one persisted transcript row: the second insert fails with the
uniqueness-violation code 23505, the store converts it into an update of the
existing row and completes without surfacing a failure, so the second run is
an update carrying the new content, never a duplicate row. -/
theorem storeTranscript_idempotent (s : SupaState) (t : Transcript)
    (ai1 ai2 : Option String) (acc1 acc2 src1 src2 : String)
    (h0 : s.transcripts.countP (fun r => r.id = t.callId) = 0) :
    ∃ s1 s2,
      storeTranscript s t ai1 acc1 src1 = .ok s1 ∧
      storeTranscript s1 t ai2 acc2 src2 = .ok s2 ∧
      s1.transcripts.countP (fun r => r.id = t.callId) = 1 ∧
      s2.transcripts.countP (fun r => r.id = t.callId) = 1 ∧
      (∀ row : SupaTranscriptRow, row.id = t.callId →
        ∃ e : PgError, insertTranscriptRow s1 row = .error e ∧
          e.code = "23505") ∧
      (∃ r ∈ s2.transcripts, r.id = t.callId ∧ r.full_text = t.fullText ∧
        r.ai_content = ai2) := by
  have hnone : ∀ r ∈ s.transcripts, ¬ (r.id = t.callId) := by
    intro r hr
    have := List.countP_eq_zero.mp h0 r hr
    simpa using this
  obtain ⟨s1, hrun1, hcase1⟩ := storeTranscript_run s t ai1 acc1 src1
  have hany1 : s.transcripts.any (fun r => r.id = t.callId) = false := by
    rw [List.any_eq_false]
    intro r hr
    simpa using hnone r hr
  have hs1 : s1.transcripts = s.transcripts ++
      [{ id := t.callId, account_id := acc1, platform := t.metadata.platform,
         title := t.metadata.title, duration := t.metadata.duration,
         full_text := t.fullText, recording_url := t.metadata.recordingUrl,
         ai_content := ai1, source := src1 }] := by
    rcases hcase1 with ⟨_, h⟩ | ⟨hany, _⟩
    · exact h
    · rw [hany1] at hany
      exact absurd hany (by simp)
  have hcount1 : s1.transcripts.countP (fun r => r.id = t.callId) = 1 := by
    rw [hs1, List.countP_append, h0]
    simp [List.countP_cons]
  have hmem1 : s1.transcripts.any (fun r => r.id = t.callId) = true := by
    rw [List.any_eq_true]
    refine ⟨{ id := t.callId,
              account_id := acc1,
              platform := t.metadata.platform,
              title := t.metadata.title,
              duration := t.metadata.duration,
              full_text := t.fullText,
              recording_url := t.metadata.recordingUrl,
              ai_content := ai1,
              source := src1 }, ?_, by simp⟩
    rw [hs1]
    exact List.mem_append_right _ (by simp)
  obtain ⟨s2, hrun2, hcase2⟩ := storeTranscript_run s1 t ai2 acc2 src2
  have hs2 : s2.transcripts =
      (updateTranscriptRow s1 t.callId t.fullText ai2).transcripts := by
    rcases hcase2 with ⟨hany, _⟩ | ⟨_, h⟩
    · rw [hmem1] at hany
      exact absurd hany (by simp)
    · exact h
  refine ⟨s1, s2, hrun1, hrun2, hcount1, ?_, ?_, ?_⟩
  · rw [hs2, updateTranscriptRow_countP]
    exact hcount1
  · intro row hrow
    refine ⟨{ code := "23505", message := "duplicate key value" }, ?_, rfl⟩
    have hneed : s1.transcripts.any (fun r => r.id = row.id) = true := by
      rw [hrow]
      exact hmem1
    rw [insertTranscriptRow, if_pos hneed]
  · refine ⟨{ id := t.callId,
              account_id := acc1,
              platform := t.metadata.platform,
              title := t.metadata.title,
              duration := t.metadata.duration,
              full_text := t.fullText,
              recording_url := t.metadata.recordingUrl,
              ai_content := ai2,
              source := src1 }, ?_, rfl, rfl, rfl⟩
    rw [hs2]
    unfold updateTranscriptRow
    dsimp only
    rw [hs1, List.map_append]
    refine List.mem_append_right _ ?_
    simp

/-- C2 witness: the theorem applied to the empty store and a concrete
transcript. -/
theorem storeTranscript_idempotent_witness :
    (SupaState.transcripts { transcripts := [], transcript_segments := [] }
        |>.countP (fun r => r.id = exStoredTranscript.callId)) = 0 ∧
    ∃ s1 s2,
      storeTranscript { transcripts := [], transcript_segments := [] }
        exStoredTranscript none "acct-1" "webhook" = .ok s1 ∧
      storeTranscript s1 exStoredTranscript (some "summary") "acct-1" "webhook" =
        .ok s2 ∧
      s1.transcripts.countP (fun r => r.id = exStoredTranscript.callId) = 1 ∧
      s2.transcripts.countP (fun r => r.id = exStoredTranscript.callId) = 1 ∧
      (∀ row : SupaTranscriptRow, row.id = exStoredTranscript.callId →
        ∃ e : PgError, insertTranscriptRow s1 row = .error e ∧
          e.code = "23505") ∧
      (∃ r ∈ s2.transcripts, r.id = exStoredTranscript.callId ∧
        r.full_text = exStoredTranscript.fullText ∧
        r.ai_content = some "summary") :=
  ⟨rfl, storeTranscript_idempotent { transcripts := [], transcript_segments := [] }
    exStoredTranscript none (some "summary") "acct-1" "acct-1" "webhook" "webhook"
    rfl⟩

theorem primaryEntry_nil : primaryEntry [] = none := rfl

theorem applyDomainBasedAssociation_spec (s : RepoState) (t : Transcript)
    (p : String) (c : Nat)
    (h : primaryEntry (extractExternalDomains t.metadata.attendees) = some (p, c)) :
    applyDomainBasedAssociation s t =
      (match getAccountByDomain s p with
       | some account =>
         (some { accountId := account.id,
                 confidence := min (9/10)
                   ((c : ℚ) /
                     ((extractExternalDomains t.metadata.attendees).length : ℚ) +
                    3/10),
                 rule := "domain-based",
                 suggestions := some
                   ((extractExternalDomains t.metadata.attendees).filter
                     (fun d => d ≠ p)) }, s)
       | none =>
         (some { accountId := "acct-" ++ toString s.nextAccountId,
                 confidence := min (9/10)
                   ((c : ℚ) /
                     ((extractExternalDomains t.metadata.attendees).length : ℚ) +
                    3/10),
                 rule := "domain-based",
                 suggestions := some
                   ((extractExternalDomains t.metadata.attendees).filter
                     (fun d => d ≠ p)) },
          { s with
            accounts := s.accounts ++
              [{ id := "acct-" ++ toString s.nextAccountId,
                 name := generateAccountName p t,
                 domain := p,
                 metadata := [("source", "auto-created"),
                              ("firstTranscriptId", t.callId),
                              ("createdFromDomain", p)] }],
            nextAccountId := s.nextAccountId + 1 })) := by
  have hne : (extractExternalDomains t.metadata.attendees).isEmpty = false := by
    cases hd : extractExternalDomains t.metadata.attendees with
    | nil => rw [hd] at h; exact absurd h (by simp [primaryEntry_nil])
    | cons a l => rfl
  unfold applyDomainBasedAssociation
  dsimp only
  rw [hne]
  simp only [Bool.false_eq_true, if_false]
  rw [h]
  dsimp only
  cases hacc : getAccountByDomain s p with
  | some account => rfl
  | none => rfl

/-- C3: resolving the same primary domain twice through domain-based
association returns the same account id both times; the second resolution
never creates another account, and when an account with that domain already
exists in the repository it is reused and the repository is unchanged. -/
theorem applyDomainBasedAssociation_no_duplicate
    (s0 s1 s2 : RepoState) (t1 t2 : Transcript) (d : String)
    (r1 r2 : AccountAssociationResult)
    (hd1 : primaryDomainOf t1 = some d) (hd2 : primaryDomainOf t2 = some d)
    (h1 : applyDomainBasedAssociation s0 t1 = (some r1, s1))
    (h2 : applyDomainBasedAssociation s1 t2 = (some r2, s2)) :
    r2.accountId = r1.accountId ∧ s2 = s1 ∧
    (∀ a, getAccountByDomain s0 d = some a → r1.accountId = a.id ∧ s1 = s0) := by
  obtain ⟨e1, hpe1, hfst1⟩ := Option.map_eq_some'.mp hd1
  obtain ⟨e2, hpe2, hfst2⟩ := Option.map_eq_some'.mp hd2
  rw [applyDomainBasedAssociation_spec s0 t1 e1.1 e1.2 (by rw [hpe1])] at h1
  rw [applyDomainBasedAssociation_spec s1 t2 e2.1 e2.2 (by rw [hpe2])] at h2
  rw [hfst1] at h1
  rw [hfst2] at h2
  cases hacc0 : getAccountByDomain s0 d with
  | some a =>
    rw [hacc0] at h1
    dsimp only at h1
    injection h1 with h1a h1b
    injection h1a with h1a
    rw [← h1b, hacc0] at h2
    dsimp only at h2
    injection h2 with h2a h2b
    injection h2a with h2a
    refine ⟨?_, ?_, ?_⟩
    · rw [← h2a, ← h1a]
    · rw [← h2b, h1b]
    · intro a2 ha2
      cases ha2
      exact ⟨by rw [← h1a], h1b.symm⟩
  | none =>
    rw [hacc0] at h1
    dsimp only at h1
    injection h1 with h1a h1b
    injection h1a with h1a
    have hacc1 : getAccountByDomain s1 d =
        some { id := "acct-" ++ toString s0.nextAccountId,
               name := generateAccountName d t1,
               domain := d,
               metadata := [("source", "auto-created"),
                            ("firstTranscriptId", t1.callId),
                            ("createdFromDomain", d)] } := by
      rw [← h1b]
      unfold getAccountByDomain at hacc0 ⊢
      dsimp only
      rw [List.find?_append, hacc0]
      simp
    rw [hacc1] at h2
    dsimp only at h2
    injection h2 with h2a h2b
    injection h2a with h2a
    refine ⟨?_, ?_, ?_⟩
    · rw [← h2a, ← h1a]
    · rw [← h2b]
    · intro a2 ha2
      exact absurd ha2 (by simp)

/-- C3 witness: the theorem applied to two concrete calls that both resolve
to acme.com, starting from the empty repository. -/
theorem applyDomainBasedAssociation_no_duplicate_witness :
    primaryDomainOf exTranscriptGmailAcme = some "acme.com" ∧
    primaryDomainOf exTranscriptAcme2 = some "acme.com" ∧
    applyDomainBasedAssociation exRepoEmpty exTranscriptGmailAcme =
      (some exAcmeResult, exRepoAfterAcme) ∧
    applyDomainBasedAssociation exRepoAfterAcme exTranscriptAcme2 =
      (some exAcmeResult, exRepoAfterAcme) ∧
    (exAcmeResult.accountId = exAcmeResult.accountId ∧
      exRepoAfterAcme = exRepoAfterAcme ∧
      (∀ a, getAccountByDomain exRepoEmpty "acme.com" = some a →
        exAcmeResult.accountId = a.id ∧ exRepoAfterAcme = exRepoEmpty)) := by
  have hpe1 : primaryEntry
      (extractExternalDomains exTranscriptGmailAcme.metadata.attendees) =
      some ("acme.com", 1) := by decide
  have hpe2 : primaryEntry
      (extractExternalDomains exTranscriptAcme2.metadata.attendees) =
      some ("acme.com", 1) := by decide
  have hd1 : primaryDomainOf exTranscriptGmailAcme = some "acme.com" := by
    unfold primaryDomainOf
    rw [hpe1]
    rfl
  have hd2 : primaryDomainOf exTranscriptAcme2 = some "acme.com" := by
    unfold primaryDomainOf
    rw [hpe2]
    rfl
  have hacc0 : getAccountByDomain exRepoEmpty "acme.com" = none := by decide
  have hacc1 : getAccountByDomain exRepoAfterAcme "acme.com" =
      some exAcmeAccount := by decide
  have h1 : applyDomainBasedAssociation exRepoEmpty exTranscriptGmailAcme =
      (some exAcmeResult, exRepoAfterAcme) := by
    rw [applyDomainBasedAssociation_spec _ _ "acme.com" 1 hpe1, hacc0]
    dsimp only
    rw [Prod.mk.injEq, Option.some.injEq]
    refine ⟨?_, by decide⟩
    simp only [exAcmeResult]
    rw [AccountAssociationResult.mk.injEq]
    refine ⟨by decide, ?_, by decide, by decide⟩
    rw [show (extractExternalDomains
      exTranscriptGmailAcme.metadata.attendees).length = 1 from by decide]
    norm_num
  have h2 : applyDomainBasedAssociation exRepoAfterAcme exTranscriptAcme2 =
      (some exAcmeResult, exRepoAfterAcme) := by
    rw [applyDomainBasedAssociation_spec _ _ "acme.com" 1 hpe2, hacc1]
    dsimp only
    rw [Prod.mk.injEq, Option.some.injEq]
    refine ⟨?_, rfl⟩
    simp only [exAcmeResult]
    rw [AccountAssociationResult.mk.injEq]
    refine ⟨by decide, ?_, by decide, by decide⟩
    rw [show (extractExternalDomains
      exTranscriptAcme2.metadata.attendees).length = 1 from by decide]
    norm_num
  exact ⟨hd1, hd2, h1, h2,
    applyDomainBasedAssociation_no_duplicate exRepoEmpty exRepoAfterAcme
      exRepoAfterAcme exTranscriptGmailAcme exTranscriptAcme2 "acme.com"
      exAcmeResult exAcmeResult hd1 hd2 h1 h2⟩

theorem findSome?_exists {α β : Type _} {f : α → Option β} {l : List α} {b : β}
    (h : l.findSome? f = some b) : ∃ a ∈ l, f a = some b := by
  induction l with
  | nil => simp [List.findSome?_nil] at h
  | cons x xs ih =>
    rw [List.findSome?_cons] at h
    cases hx : f x with
    | some v =>
      rw [hx] at h
      dsimp only at h
      exact ⟨x, by simp, by rw [hx, h]⟩
    | none =>
      rw [hx] at h
      dsimp only at h
      obtain ⟨a, ha, hfa⟩ := ih h
      exact ⟨a, by simp [ha], hfa⟩

theorem evaluateDomainRule_conf (rule : AccountAssociationRule) (t : Transcript)
    (res : AccountAssociationResult) (h : evaluateDomainRule rule t = some res) :
    res.confidence = 9/10 := by
  unfold evaluateDomainRule at h
  dsimp only at h
  split at h
  · split at h
    · injection h with h
      rw [← h]
    · exact absurd h (by simp)
  · exact absurd h (by simp)

theorem evaluateEmailPatternRule_conf (regexTest : String → String → Bool)
    (rule : AccountAssociationRule) (t : Transcript)
    (res : AccountAssociationResult)
    (h : evaluateEmailPatternRule regexTest rule t = some res) :
    res.confidence = 8/10 := by
  unfold evaluateEmailPatternRule at h
  split at h
  · split at h
    · injection h with h
      rw [← h]
    · exact absurd h (by simp)
  · exact absurd h (by simp)

theorem evaluateTitlePatternRule_conf (regexTest : String → String → Bool)
    (rule : AccountAssociationRule) (t : Transcript)
    (res : AccountAssociationResult)
    (h : evaluateTitlePatternRule regexTest rule t = some res) :
    res.confidence = 7/10 := by
  unfold evaluateTitlePatternRule at h
  split at h
  · split at h
    · injection h with h
      rw [← h]
    · exact absurd h (by simp)
  · exact absurd h (by simp)

theorem evaluateRule_confidence (regexTest : String → String → Bool)
    (rule : AccountAssociationRule) (t : Transcript)
    (res : AccountAssociationResult)
    (h : evaluateRule regexTest rule t = some res) :
    res.confidence = ruleConfidence rule.type := by
  unfold evaluateRule at h
  cases htype : rule.type with
  | domain =>
    rw [htype] at h
    rw [evaluateDomainRule_conf rule t res h]
    rfl
  | email_pattern =>
    rw [htype] at h
    rw [evaluateEmailPatternRule_conf regexTest rule t res h]
    rfl
  | title_pattern =>
    rw [htype] at h
    rw [evaluateTitlePatternRule_conf regexTest rule t res h]
    rfl
  | manual =>
    rw [htype] at h
    cases hacc : truthyStr rule.accountId with
    | some aid =>
      rw [hacc] at h
      injection h with h
      rw [← h]
      rfl
    | none =>
      rw [hacc] at h
      exact absurd h (by simp)

theorem ruleConfidence_bounds (ty : RuleType) :
    0 ≤ ruleConfidence ty ∧ ruleConfidence ty ≤ 1 := by
  cases ty <;> constructor <;> norm_num [ruleConfidence]

theorem applyDomainBasedAssociation_confidence_bounds
    (s s2 : RepoState) (t : Transcript) (r : AccountAssociationResult)
    (h : applyDomainBasedAssociation s t = (some r, s2)) :
    0 ≤ r.confidence ∧ r.confidence ≤ 1 := by
  cases hpe : primaryEntry (extractExternalDomains t.metadata.attendees) with
  | none =>
    exfalso
    unfold applyDomainBasedAssociation at h
    dsimp only at h
    split at h
    · exact absurd (congrArg Prod.fst h) (by simp)
    · rw [hpe] at h
      exact absurd (congrArg Prod.fst h) (by simp)
  | some e =>
    rw [applyDomainBasedAssociation_spec s t e.1 e.2 (by rw [hpe])] at h
    have hconf : r.confidence = min (9/10)
        ((e.2 : ℚ) /
          ((extractExternalDomains t.metadata.attendees).length : ℚ) + 3/10) := by
      cases hacc : getAccountByDomain s e.1 with
      | some account =>
        rw [hacc] at h
        dsimp only at h
        injection h with h1 h2
        injection h1 with h1
        rw [← h1]
      | none =>
        rw [hacc] at h
        dsimp only at h
        injection h with h1 h2
        injection h1 with h1
        rw [← h1]
    rw [hconf]
    constructor
    · refine le_min (by norm_num) ?_
      have hdiv : (0 : ℚ) ≤ (e.2 : ℚ) /
          ((extractExternalDomains t.metadata.attendees).length : ℚ) :=
        div_nonneg (Nat.cast_nonneg _) (Nat.cast_nonneg _)
      linarith
    · have hle : min (9/10 : ℚ)
          ((e.2 : ℚ) /
            ((extractExternalDomains t.metadata.attendees).length : ℚ) + 3/10) ≤
            (9/10 : ℚ) := min_le_left _ _
      linarith

/-- C6: every AccountAssociationResult produced by determineAccountAssociation
has confidence between zero and one; a fired custom rule carries the fixed
constant of its type (manual 1.0, domain 0.9, email pattern 0.8, title pattern
0.7) and the fallback path carries 0.3. -/
theorem determineAccountAssociation_confidence
    (regexTest : String → String → Bool)
    (rules : List AccountAssociationRule) (s : RepoState) (t : Transcript) :
    (0 ≤ (determineAccountAssociation regexTest rules s t).1.confidence ∧
      (determineAccountAssociation regexTest rules s t).1.confidence ≤ 1) ∧
    (∀ (rule : AccountAssociationRule) (t2 : Transcript)
        (res : AccountAssociationResult),
      evaluateRule regexTest rule t2 = some res →
      res.confidence = ruleConfidence rule.type) ∧
    (applyCustomRules regexTest rules t = none →
      (applyDomainBasedAssociation s t).1 = none →
      (determineAccountAssociation regexTest rules s t).1.confidence = 3/10) := by
  refine ⟨?_, fun rule t2 res h => evaluateRule_confidence regexTest rule t2 res h, ?_⟩
  · unfold determineAccountAssociation
    cases hc : applyCustomRules regexTest rules t with
    | some res =>
      dsimp only
      obtain ⟨rule, _, hfr⟩ := findSome?_exists hc
      rw [evaluateRule_confidence regexTest rule t res hfr]
      exact ruleConfidence_bounds rule.type
    | none =>
      dsimp only
      rcases hd : applyDomainBasedAssociation s t with ⟨o, s2⟩
      cases o with
      | some r =>
        dsimp only
        exact applyDomainBasedAssociation_confidence_bounds s s2 t r hd
      | none =>
        dsimp only
        constructor <;> norm_num
  · intro hc hd
    unfold determineAccountAssociation
    rw [hc]
    dsimp only
    rcases hpair : applyDomainBasedAssociation s t with ⟨o, s2⟩
    rw [hpair] at hd
    dsimp only at hd
    rw [hd]

/-- C6 witness: the theorem applied to the empty rule list, the empty
repository and a call whose only attendee is on a deny-listed domain, plus the
manual-rule constant at a concrete fired rule. -/
theorem determineAccountAssociation_confidence_witness :
    (0 ≤ (determineAccountAssociation (fun _ _ => false) [] exRepoEmpty
        exTranscriptGmailOnly).1.confidence ∧
      (determineAccountAssociation (fun _ _ => false) [] exRepoEmpty
        exTranscriptGmailOnly).1.confidence ≤ 1) ∧
    ({ accountId := "acct-M", confidence := 1, rule := "pin-rule",
       suggestions := none : AccountAssociationResult }.confidence =
      ruleConfidence RuleType.manual) ∧
    (determineAccountAssociation (fun _ _ => false) [] exRepoEmpty
      exTranscriptGmailOnly).1.confidence = 3/10 := by
  have hthm := determineAccountAssociation_confidence (fun _ _ => false) []
    exRepoEmpty exTranscriptGmailOnly
  refine ⟨hthm.1, ?_, ?_⟩
  · exact hthm.2.1 exManualRule exTranscriptGmailOnly
      { accountId := "acct-M", confidence := 1, rule := "pin-rule",
        suggestions := none } rfl
  · exact hthm.2.2 rfl (by decide)

/-- C7 counterexample: an active domain rule with pattern gmail.com and a
target account, and a transcript with an attendee whose email domain equals
the pattern case-insensitively; the claim says the rule fires, but
evaluateDomainRule returns none, because extractExternalDomains removes
deny-listed domains before the rule is matched. -/
theorem evaluateDomainRule_denylist_counterexample :
    exGmailDomainRule.type = RuleType.domain ∧
    exGmailDomainRule.active = true ∧
    truthyStr exGmailDomainRule.pattern = some "gmail.com" ∧
    truthyStr exGmailDomainRule.accountId = some "acct-X" ∧
    (∃ a ∈ exTranscriptGmailOnly.metadata.attendees,
      (emailDomain a.email).map lowerStr = some (lowerStr "gmail.com")) ∧
    evaluateDomainRule exGmailDomainRule exTranscriptGmailOnly = none := by
  refine ⟨rfl, rfl, by decide, by decide,
    ⟨mkAtt "a@gmail.com", by decide, by decide⟩, by decide⟩

/-- C7 amended: for an active domain rule with a truthy pattern and target
account, the rule fires, with the target account and confidence 0.9, exactly
when some extracted external attendee domain (deny-listed personal domains
and missing or empty domains excluded) equals the pattern case-insensitively. -/
theorem evaluateDomainRule_matches_iff (rule : AccountAssociationRule)
    (t : Transcript) (p aid : String)
    (hp : truthyStr rule.pattern = some p)
    (ha : truthyStr rule.accountId = some aid) :
    evaluateDomainRule rule t =
      (if (extractExternalDomains t.metadata.attendees).any
          (fun d => lowerStr d = lowerStr p) then
        some { accountId := aid, confidence := 9/10, rule := rule.name }
      else none) := by
  unfold evaluateDomainRule
  rw [hp, ha]
  dsimp only
  cases hf : (extractExternalDomains t.metadata.attendees).find?
      (fun d => lowerStr d = lowerStr p) with
  | some d =>
    have hany : (extractExternalDomains t.metadata.attendees).any
        (fun d => lowerStr d = lowerStr p) = true := by
      rw [List.any_eq_true]
      have hpred := List.find?_some hf
      exact ⟨d, List.mem_of_find?_eq_some hf, hpred⟩
    rw [hany]
    simp
  | none =>
    have hany : (extractExternalDomains t.metadata.attendees).any
        (fun d => lowerStr d = lowerStr p) = false := by
      rw [List.any_eq_false]
      intro d hd
      simpa using List.find?_eq_none.mp hf d hd
    rw [hany]
    simp

/-- C7 witness for the amended theorem: the mixed-case acme rule applied to
the gmail-and-acme transcript. -/
theorem evaluateDomainRule_matches_iff_witness :
    truthyStr exAcmeDomainRule.pattern = some "ACME.com" ∧
    truthyStr exAcmeDomainRule.accountId = some "acct-A" ∧
    evaluateDomainRule exAcmeDomainRule exTranscriptGmailAcme =
      (if (extractExternalDomains exTranscriptGmailAcme.metadata.attendees).any
          (fun d => lowerStr d = lowerStr "ACME.com") then
        some { accountId := "acct-A", confidence := 9/10,
               rule := exAcmeDomainRule.name }
      else none) :=
  ⟨by decide, by decide,
    evaluateDomainRule_matches_iff exAcmeDomainRule exTranscriptGmailAcme
      "ACME.com" "acct-A" (by decide) (by decide)⟩

/-- C9 counterexample: reassociating the one persisted transcript succeeds
and updates the account pointer, yet no audit record is appended to any
persisted audit store — the resulting audit store is empty, and the
old-account reference survives only in a console log line. -/
theorem reassociateTranscript_audit_counterexample :
    reassociateTranscript exServiceState "t1" "acc-new" "wrong account"
      (some "alice") = .ok exReassocState ∧
    exReassocState.repo.transcripts =
      [{ exOldRecord with account_id := "acc-new" }] ∧
    exServiceState.auditLog = [] ∧
    exReassocState.auditLog = [] := by
  refine ⟨rfl, by decide, rfl, rfl⟩

/-- C9 amended: reassociateTranscript updates the existing transcript's
account pointer, leaves every other transcript row and the persisted audit
store untouched, and records the old and new account ids only in a console
log line; when the transcript does not exist it fails with an error without
updating anything. -/
theorem reassociateTranscript_updates_pointer (st : ServiceState)
    (tid newAid reason : String) (actor : Option String) :
    (getTranscriptById st.repo tid = none →
      reassociateTranscript st tid newAid reason actor =
        .error ("Transcript " ++ tid ++ " not found")) ∧
    (∀ tr, getTranscriptById st.repo tid = some tr →
      reassociateTranscript st tid newAid reason actor = .ok
        { repo := updateTranscriptAccount st.repo tid newAid,
          auditLog := st.auditLog,
          consoleLog := st.consoleLog ++
            ["Transcript " ++ tid ++ " reassociated from " ++ tr.account_id ++
             " to " ++ newAid ++ ". Reason: " ++ reason] } ∧
      getTranscriptById (updateTranscriptAccount st.repo tid newAid) tid =
        some { tr with account_id := newAid } ∧
      (∀ tr2 ∈ st.repo.transcripts, tr2.id ≠ tid →
        tr2 ∈ (updateTranscriptAccount st.repo tid newAid).transcripts)) := by
  constructor
  · intro h
    unfold reassociateTranscript
    rw [h]
  · intro tr htr
    have htrid : tr.id = tid := by simpa using List.find?_some htr
    refine ⟨?_, ?_, ?_⟩
    · unfold reassociateTranscript
      rw [htr]
    · unfold getTranscriptById at htr ⊢
      unfold updateTranscriptAccount
      dsimp only
      rw [List.find?_map]
      have hcomp : ((fun t : TranscriptRecord => decide (t.id = tid)) ∘
          (fun t : TranscriptRecord =>
            if t.id = tid then { t with account_id := newAid } else t)) =
          (fun t : TranscriptRecord => decide (t.id = tid)) := by
        funext t
        by_cases h : t.id = tid <;> simp [h]
      rw [hcomp, htr]
      simp [htrid]
    · intro tr2 htr2 hne
      unfold updateTranscriptAccount
      dsimp only
      have : (if tr2.id = tid then { tr2 with account_id := newAid } else tr2) =
          tr2 := by
        rw [if_neg hne]
      rw [← this]
      exact List.mem_map_of_mem _ htr2

/-- C9 witness for the amended theorem: the reassociation applied to the
concrete service state holding one transcript on acc-old. -/
theorem reassociateTranscript_updates_pointer_witness :
    reassociateTranscript exServiceState "t1" "acc-new" "moved" none = .ok
      { repo := updateTranscriptAccount exServiceState.repo "t1" "acc-new",
        auditLog := exServiceState.auditLog,
        consoleLog := exServiceState.consoleLog ++
          ["Transcript t1 reassociated from acc-old to acc-new. Reason: moved"] } ∧
    getTranscriptById
        (updateTranscriptAccount exServiceState.repo "t1" "acc-new") "t1" =
      some { exOldRecord with account_id := "acc-new" } :=
  ⟨((reassociateTranscript_updates_pointer exServiceState "t1" "acc-new" "moved"
      none).2 exOldRecord (by decide)).1,
   ((reassociateTranscript_updates_pointer exServiceState "t1" "acc-new" "moved"
      none).2 exOldRecord (by decide)).2.1⟩

/-- C10: only the deny-list membership test lower-cases; extracted domains are
kept verbatim (every extracted domain is the unmodified split of some attendee
email), so domains differing only in letter case are counted as two distinct
entries, and the account lookup and creation use the verbatim primary domain:
with an account stored under acme.com, a call attended from Acme.com and
acme.com resolves primary Acme.com and creates a second, distinct account
keyed Acme.com rather than reusing the acme.com one. -/
theorem extractExternalDomains_case_sensitivity :
    extractExternalDomains exTranscriptMixedCase.metadata.attendees =
      ["Acme.com", "acme.com"] ∧
    domainCounts
        (extractExternalDomains exTranscriptMixedCase.metadata.attendees) =
      [("Acme.com", 1), ("acme.com", 1)] ∧
    (∀ attendees : List Attendee,
      ((extractExternalDomains attendees).all (fun d =>
        attendees.any (fun a => emailDomain a.email == some d))) = true) ∧
    extractExternalDomains [mkAtt "z@GMAIL.COM"] = [] ∧
    primaryDomainOf exTranscriptMixedCase = some "Acme.com" ∧
    (applyDomainBasedAssociation exRepoLowerAcme
        exTranscriptMixedCase).2.accounts.map (fun a => a.domain) =
      ["acme.com", "Acme.com"] ∧
    (applyDomainBasedAssociation exRepoLowerAcme
        exTranscriptMixedCase).1.map (fun r => r.accountId) = some "acct-0" := by
  refine ⟨by decide, by decide, ?_, by decide, by decide, by decide, by decide⟩
  intro attendees
  rw [List.all_eq_true]
  intro d hd
  rw [List.any_eq_true]
  unfold extractExternalDomains at hd
  obtain ⟨a, ha, hfa⟩ := List.mem_filterMap.mp hd
  refine ⟨a, ha, ?_⟩
  cases he : emailDomain a.email with
  | none =>
    rw [he] at hfa
    exact absurd hfa (by simp)
  | some d0 =>
    rw [he] at hfa
    dsimp only at hfa
    split at hfa
    · exact absurd hfa (by simp)
    · split at hfa
      · exact absurd hfa (by simp)
      · injection hfa with hfa
        simp [hfa]

theorem mem_insertByPriority {r x : AccountAssociationRule}
    {l : List AccountAssociationRule} :
    x ∈ insertByPriority r l ↔ x = r ∨ x ∈ l := by
  induction l with
  | nil => simp [insertByPriority]
  | cons y ys ih =>
    unfold insertByPriority
    by_cases h : r.priority ≥ y.priority
    · rw [if_pos h]
      simp [List.mem_cons]
    · rw [if_neg h]
      simp only [List.mem_cons, ih]
      tauto

theorem sorted_insertByPriority {r : AccountAssociationRule}
    {l : List AccountAssociationRule}
    (h : l.Pairwise (fun a b => b.priority ≤ a.priority)) :
    (insertByPriority r l).Pairwise (fun a b => b.priority ≤ a.priority) := by
  induction l with
  | nil => simp [insertByPriority]
  | cons y ys ih =>
    rw [List.pairwise_cons] at h
    obtain ⟨hy, hys⟩ := h
    unfold insertByPriority
    by_cases hp : r.priority ≥ y.priority
    · rw [if_pos hp]
      rw [List.pairwise_cons]
      refine ⟨?_, List.pairwise_cons.mpr ⟨hy, hys⟩⟩
      intro b hb
      rcases List.mem_cons.mp hb with rfl | hb
      · exact hp
      · exact le_trans (hy b hb) hp
    · rw [if_neg hp]
      rw [List.pairwise_cons]
      refine ⟨?_, ih hys⟩
      intro b hb
      rcases mem_insertByPriority.mp hb with rfl | hb
      · exact le_of_not_le hp
      · exact hy b hb

theorem mem_sortByPriorityDesc {x : AccountAssociationRule}
    {l : List AccountAssociationRule} :
    x ∈ sortByPriorityDesc l ↔ x ∈ l := by
  induction l with
  | nil => simp [sortByPriorityDesc]
  | cons y ys ih =>
    unfold sortByPriorityDesc at ih ⊢
    rw [List.foldr_cons, mem_insertByPriority, ih]
    simp [List.mem_cons]

theorem sorted_sortByPriorityDesc (l : List AccountAssociationRule) :
    (sortByPriorityDesc l).Pairwise (fun a b => b.priority ≤ a.priority) := by
  induction l with
  | nil => simp [sortByPriorityDesc]
  | cons y ys ih =>
    unfold sortByPriorityDesc at ih ⊢
    rw [List.foldr_cons]
    exact sorted_insertByPriority ih

theorem findSome?_eq_some_split {α β : Type _} {f : α → Option β} {l : List α}
    {b : β} (h : l.findSome? f = some b) :
    ∃ l1 a l2, l = l1 ++ a :: l2 ∧ (∀ x ∈ l1, f x = none) ∧ f a = some b := by
  induction l with
  | nil => simp [List.findSome?_nil] at h
  | cons x xs ih =>
    rw [List.findSome?_cons] at h
    cases hx : f x with
    | some v =>
      rw [hx] at h
      dsimp only at h
      exact ⟨[], x, xs, rfl, by simp, by rw [hx, h]⟩
    | none =>
      rw [hx] at h
      dsimp only at h
      obtain ⟨l1, a, l2, heq, hnone, hfa⟩ := ih h
      refine ⟨x :: l1, a, l2, by rw [heq, List.cons_append], ?_, hfa⟩
      intro y hy
      rcases List.mem_cons.mp hy with rfl | hy
      · exact hx
      · exact hnone y hy

/-- C4: applyCustomRules returns the value of a fired active rule over which
no active rule of strictly higher priority fires; in particular, when the
active rules are exactly an active manual rule with a target account and a
lower-priority active domain rule that also matches, the result is the manual
rule's target account with confidence 1. -/
theorem applyCustomRules_precedence (regexTest : String → String → Bool)
    (rules : List AccountAssociationRule) (t : Transcript) :
    (∀ res, applyCustomRules regexTest rules t = some res →
      ∃ r ∈ rules, r.active = true ∧ evaluateRule regexTest r t = some res ∧
        ∀ r2 ∈ rules, r2.active = true → r.priority < r2.priority →
          evaluateRule regexTest r2 t = none) ∧
    (∀ (m dr : AccountAssociationRule) (tgt : String)
        (dres : AccountAssociationResult),
      m ∈ rules → dr ∈ rules → m.active = true → dr.active = true →
      m.type = RuleType.manual → truthyStr m.accountId = some tgt →
      dr.type = RuleType.domain → evaluateDomainRule dr t = some dres →
      dr.priority < m.priority →
      (∀ r ∈ rules, r.active = true → r = m ∨ r = dr) →
      applyCustomRules regexTest rules t =
        some { accountId := tgt, confidence := 1, rule := m.name,
               suggestions := none }) := by
  constructor
  · intro res h
    unfold applyCustomRules at h
    obtain ⟨l1, r, l2, heq, hnone, hfr⟩ := findSome?_eq_some_split h
    have hrmem : r ∈ rules.filter (·.active) := by
      rw [← mem_sortByPriorityDesc, heq]
      simp
    have hr_rules : r ∈ rules := (List.mem_filter.mp hrmem).1
    have hr_active : r.active = true := by
      simpa using (List.mem_filter.mp hrmem).2
    refine ⟨r, hr_rules, hr_active, hfr, ?_⟩
    intro r2 h2mem h2act hlt
    have h2sorted : r2 ∈ sortByPriorityDesc (rules.filter (·.active)) :=
      mem_sortByPriorityDesc.mpr (List.mem_filter.mpr ⟨h2mem, by simpa⟩)
    rw [heq] at h2sorted
    rcases List.mem_append.mp h2sorted with h2l1 | h2cons
    · exact hnone r2 h2l1
    · rcases List.mem_cons.mp h2cons with rfl | h2l2
      · exact absurd hlt (lt_irrefl _)
      · have hsorted := sorted_sortByPriorityDesc (rules.filter (·.active))
        rw [heq] at hsorted
        have hpair := (List.pairwise_append.mp hsorted).2.1
        rw [List.pairwise_cons] at hpair
        exact absurd hlt (not_lt.mpr (hpair.1 r2 h2l2))
  · intro m dr tgt dres hm hdr hma hdra hmt hmacc hdrt hdrm hlt hsub
    have hne : m ≠ dr := by
      intro hcontra
      rw [hcontra, hdrt] at hmt
      exact absurd hmt (by simp)
    have hmact : m ∈ rules.filter (·.active) :=
      List.mem_filter.mpr ⟨hm, by simpa⟩
    have hmem_sorted : m ∈ sortByPriorityDesc (rules.filter (·.active)) :=
      mem_sortByPriorityDesc.mpr hmact
    have hsorted := sorted_sortByPriorityDesc (rules.filter (·.active))
    cases hS : sortByPriorityDesc (rules.filter (·.active)) with
    | nil =>
      rw [hS] at hmem_sorted
      exact absurd hmem_sorted (by simp)
    | cons h0 tl =>
      have h0mem : h0 ∈ rules.filter (·.active) := by
        rw [← mem_sortByPriorityDesc, hS]
        simp
      have h0sub := hsub h0 (List.mem_filter.mp h0mem).1
        (by simpa using (List.mem_filter.mp h0mem).2)
      have hh0 : h0 = m := by
        rcases h0sub with rfl | rfl
        · rfl
        · exfalso
          rw [hS] at hmem_sorted
          rcases List.mem_cons.mp hmem_sorted with h | h
          · exact hne h
          · rw [hS, List.pairwise_cons] at hsorted
            exact absurd hlt (not_lt.mpr (hsorted.1 m h))
      have hfire : evaluateRule regexTest m t =
          some { accountId := tgt, confidence := 1, rule := m.name,
                 suggestions := none } := by
        unfold evaluateRule
        simp only [hmt, hmacc]
      unfold applyCustomRules
      rw [hS, hh0, List.findSome?_cons, hfire]

/-- C4 witness: the precedence theorem applied to a manual rule of priority
ten and a matching domain rule of priority five. -/
theorem applyCustomRules_precedence_witness :
    applyCustomRules (fun _ _ => false) [exAcmeDomainRule, exManualRule]
      exTranscriptGmailAcme =
      some { accountId := "acct-M", confidence := 1, rule := "pin-rule",
             suggestions := none } :=
  (applyCustomRules_precedence (fun _ _ => false)
      [exAcmeDomainRule, exManualRule] exTranscriptGmailAcme).2
    exManualRule exAcmeDomainRule "acct-M"
    { accountId := "acct-A", confidence := 9/10, rule := "acme-rule",
      suggestions := none }
    (by decide) (by decide) rfl rfl rfl (by decide) rfl rfl (by decide)
    (by decide)

theorem effectiveLimit_pos (o : Option Nat) : 0 < effectiveLimit o := by
  cases o with
  | none => simp [effectiveLimit]
  | some n => cases n <;> simp [effectiveLimit]

theorem listCallsGo_bound (fetch : Option String → Nat → Except String GongPage)
    (limit : Nat)
    (hsize : ∀ cur n page pc, fetch cur n = .ok page →
      page.calls = some pc → pc.length ≤ n) :
    ∀ fuel cursor acc calls, acc.length < limit →
      listCallsGo fetch limit fuel cursor acc = .ok calls →
      calls.length ≤ limit := by
  intro fuel
  induction fuel with
  | zero =>
    intro cursor acc calls hacc h
    exact absurd h (by simp [listCallsGo])
  | succ n ih =>
    intro cursor acc calls hacc h
    unfold listCallsGo at h
    cases hf : fetch cursor (min (limit - acc.length) 100) with
    | error e =>
      rw [hf] at h
      exact absurd h (by simp)
    | ok page =>
      rw [hf] at h
      dsimp only at h
      cases hc : page.calls with
      | none =>
        rw [hc] at h
        dsimp only at h
        cases h
        exact le_of_lt hacc
      | some pc =>
        rw [hc] at h
        dsimp only at h
        have hpc : pc.length ≤ min (limit - acc.length) 100 :=
          hsize _ _ _ _ hf hc
        have hlen : (acc ++ pc).length ≤ limit := by
          rw [List.length_append]
          have h1 : pc.length ≤ limit - acc.length :=
            le_trans hpc (min_le_left _ _)
          omega
        by_cases hge : (acc ++ pc).length ≥ limit
        · rw [if_pos hge] at h
          cases h
          exact hlen
        · rw [if_neg hge] at h
          by_cases hcur : cursorTruthy page.cursor = true
          · rw [if_pos hcur] at h
            exact ih page.cursor (acc ++ pc) calls (by omega) h
          · rw [if_neg hcur] at h
            cases h
            exact hlen

/-- C8: the pagination loop of listCalls returns at most the defaulted limit
when every vendor page respects the requested page size; it aborts with the
fetch error, discarding every call gathered on earlier pages, whenever a page
fetch fails; it continues to the next page exactly while the cursor is truthy
and the limit is not reached, and stops, returning the gathered calls, when
the cursor is falsy or the limit is satisfied. -/
theorem listCalls_pagination
    (fetch : Option String → Nat → Except String GongPage) :
    (∀ (limitOpt : Option Nat) (fuel : Nat) (calls : List CallMetadata),
      (∀ cur n page pc, fetch cur n = .ok page → page.calls = some pc →
        pc.length ≤ n) →
      listCalls fetch limitOpt fuel = .ok calls →
      calls.length ≤ effectiveLimit limitOpt) ∧
    (∀ (limit fuel : Nat) (cursor : Option String) (acc : List CallMetadata)
        (e : String),
      fetch cursor (min (limit - acc.length) 100) = .error e →
      listCallsGo fetch limit (fuel + 1) cursor acc = .error e) ∧
    (∀ (limit fuel : Nat) (cursor : Option String) (acc : List CallMetadata)
        (page : GongPage) (pc : List CallMetadata),
      fetch cursor (min (limit - acc.length) 100) = .ok page →
      page.calls = some pc → (acc ++ pc).length < limit →
      cursorTruthy page.cursor = true →
      listCallsGo fetch limit (fuel + 1) cursor acc =
        listCallsGo fetch limit fuel page.cursor (acc ++ pc)) ∧
    (∀ (limit fuel : Nat) (cursor : Option String) (acc : List CallMetadata)
        (page : GongPage) (pc : List CallMetadata),
      fetch cursor (min (limit - acc.length) 100) = .ok page →
      page.calls = some pc → (acc ++ pc).length < limit →
      cursorTruthy page.cursor = false →
      listCallsGo fetch limit (fuel + 1) cursor acc = .ok (acc ++ pc)) ∧
    (∀ (limit fuel : Nat) (cursor : Option String) (acc : List CallMetadata)
        (page : GongPage) (pc : List CallMetadata),
      fetch cursor (min (limit - acc.length) 100) = .ok page →
      page.calls = some pc → (acc ++ pc).length ≥ limit →
      listCallsGo fetch limit (fuel + 1) cursor acc = .ok (acc ++ pc)) := by
  refine ⟨?_, ?_, ?_, ?_, ?_⟩
  · intro limitOpt fuel calls hsize h
    exact listCallsGo_bound fetch (effectiveLimit limitOpt) hsize fuel none []
      calls (by simpa using effectiveLimit_pos limitOpt) h
  · intro limit fuel cursor acc e hf
    simp only [listCallsGo]
    rw [hf]
  · intro limit fuel cursor acc page pc hf hc hlt hcur
    simp only [listCallsGo]
    rw [hf]
    dsimp only
    rw [hc]
    dsimp only
    rw [if_neg (by omega), if_pos hcur]
  · intro limit fuel cursor acc page pc hf hc hlt hcur
    simp only [listCallsGo]
    rw [hf]
    dsimp only
    rw [hc]
    dsimp only
    rw [if_neg (by omega), if_neg (by simp [hcur])]
  · intro limit fuel cursor acc page pc hf hc hge
    simp only [listCallsGo]
    rw [hf]
    dsimp only
    rw [hc]
    dsimp only
    rw [if_pos hge]

/-- C8 witness: the bound applied to a vendor that always serves full pages;
with limit 150 the listing stops after one hundred and fifty calls. -/
theorem listCalls_pagination_witness :
    listCalls exFetchPages (some 150) 5 =
      .ok (List.replicate 150 exCallMeta) ∧
    (List.replicate 150 exCallMeta).length ≤ effectiveLimit (some 150) := by
  have hsize : ∀ cur n page pc, exFetchPages cur n = .ok page →
      page.calls = some pc → pc.length ≤ n := by
    intro cur n page pc hf hpc
    cases hf
    cases hpc
    simp
  have hrun : listCalls exFetchPages (some 150) 5 =
      .ok (List.replicate 150 exCallMeta) := rfl
  exact ⟨hrun, (listCalls_pagination exFetchPages).1 (some 150) 5
    (List.replicate 150 exCallMeta) hsize hrun⟩

theorem bumpCount_lookup (L : List (String × Nat)) (d k : String) :
    lookupCount (bumpCount L d) k =
      if k = d then lookupCount L d + 1 else lookupCount L k := by
  induction L with
  | nil =>
    by_cases h : k = d
    · subst h
      simp [bumpCount, lookupCount]
    · have h2 : ¬ d = k := fun hh => h hh.symm
      simp [bumpCount, lookupCount, h, h2]
  | cons e L ih =>
    obtain ⟨a, v⟩ := e
    unfold bumpCount
    by_cases had : a = d
    · rw [if_pos had]
      subst had
      by_cases hk : a = k
      · subst hk
        simp [lookupCount]
      · have hk2 : ¬ k = a := fun hh => hk hh.symm
        simp [lookupCount, hk, hk2]
    · rw [if_neg had]
      by_cases hk : k = d
      · subst hk
        have hak : ¬ a = k := fun hh => had hh
        simp only [lookupCount, if_neg hak, ih, if_pos rfl]
      · by_cases hak : a = k
        · subst hak
          simp only [lookupCount, if_pos rfl, ih, if_neg hk]
        · simp only [lookupCount, if_neg hak, ih, if_neg hk]

theorem bumpCount_keys (L : List (String × Nat)) (d : String) :
    (bumpCount L d).map Prod.fst =
      if d ∈ L.map Prod.fst then L.map Prod.fst
      else L.map Prod.fst ++ [d] := by
  induction L with
  | nil => simp [bumpCount]
  | cons e L ih =>
    obtain ⟨a, v⟩ := e
    unfold bumpCount
    by_cases had : a = d
    · rw [if_pos had]
      subst had
      simp
    · rw [if_neg had]
      have hda : ¬ d = a := fun hh => had hh.symm
      by_cases hmem : d ∈ L.map Prod.fst
      · simp only [List.map_cons, ih, if_pos hmem]
        rw [if_pos]
        simp [hmem]
      · simp only [List.map_cons, ih, if_neg hmem]
        rw [if_neg]
        · simp
        · simp [hmem, hda]

theorem domainCounts_concat (l : List String) (d : String) :
    domainCounts (l ++ [d]) = bumpCount (domainCounts l) d := by
  simp [domainCounts, List.foldl_concat]

theorem domainCounts_lookup (l : List String) (k : String) :
    lookupCount (domainCounts l) k = l.count k := by
  induction l using List.reverseRecOn with
  | nil => simp [domainCounts, lookupCount]
  | append_singleton l d ih =>
    rw [domainCounts_concat, bumpCount_lookup]
    by_cases h : k = d
    · subst h
      simp [List.count_append, ih]
    · have h2 : ¬ (k == d) = true := by simpa using h
      simp [List.count_append, ih, h, List.count_cons, h2]

theorem domainCounts_keys_mem (l : List String) :
    ∀ k, k ∈ (domainCounts l).map Prod.fst ↔ k ∈ l := by
  induction l using List.reverseRecOn with
  | nil =>
    intro k
    simp [domainCounts]
  | append_singleton l d ih =>
    intro k
    rw [domainCounts_concat, bumpCount_keys]
    by_cases hmem : d ∈ (domainCounts l).map Prod.fst
    · rw [if_pos hmem]
      have hdl : d ∈ l := (ih d).mp hmem
      rw [ih k]
      constructor
      · intro h
        exact List.mem_append_left _ h
      · intro h
        rcases List.mem_append.mp h with h | h
        · exact h
        · rw [List.mem_singleton] at h
          subst h
          exact hdl
    · rw [if_neg hmem]
      simp [ih k]

theorem domainCounts_keys_nodup (l : List String) :
    ((domainCounts l).map Prod.fst).Nodup := by
  induction l using List.reverseRecOn with
  | nil => simp [domainCounts]
  | append_singleton l d ih =>
    rw [domainCounts_concat, bumpCount_keys]
    by_cases hmem : d ∈ (domainCounts l).map Prod.fst
    · rw [if_pos hmem]
      exact ih
    · rw [if_neg hmem]
      rw [List.nodup_append]
      refine ⟨ih, by simp, ?_⟩
      intro x hx hxd
      rw [List.mem_singleton] at hxd
      subst hxd
      exact hmem hx

theorem domainCounts_keys_pairwise (l : List String) :
    ((domainCounts l).map Prod.fst).Pairwise
      (fun a b => l.indexOf a < l.indexOf b) := by
  induction l using List.reverseRecOn with
  | nil => simp [domainCounts]
  | append_singleton l d ih =>
    rw [domainCounts_concat, bumpCount_keys]
    by_cases hmem : d ∈ (domainCounts l).map Prod.fst
    · rw [if_pos hmem]
      refine ih.imp_of_mem ?_
      intro a b ha hb hab
      rw [List.indexOf_append_of_mem ((domainCounts_keys_mem l a).mp ha),
        List.indexOf_append_of_mem ((domainCounts_keys_mem l b).mp hb)]
      exact hab
    · rw [if_neg hmem]
      rw [List.pairwise_append]
      refine ⟨?_, by simp, ?_⟩
      · refine ih.imp_of_mem ?_
        intro a b ha hb hab
        rw [List.indexOf_append_of_mem ((domainCounts_keys_mem l a).mp ha),
          List.indexOf_append_of_mem ((domainCounts_keys_mem l b).mp hb)]
        exact hab
      · intro a ha b hb
        rw [List.mem_singleton] at hb
        subst hb
        have hal : a ∈ l := (domainCounts_keys_mem l a).mp ha
        have hbl : b ∉ l := fun hc => hmem ((domainCounts_keys_mem l b).mpr hc)
        rw [List.indexOf_append_of_mem hal, List.indexOf_append_of_not_mem hbl]
        have := List.indexOf_lt_length.mpr hal
        omega

theorem lookupCount_of_mem_nodup (L : List (String × Nat))
    (hnodup : (L.map Prod.fst).Nodup) (p : String) (c : Nat)
    (h : (p, c) ∈ L) : lookupCount L p = c := by
  induction L with
  | nil => simp at h
  | cons e L ih =>
    rw [List.map_cons, List.nodup_cons] at hnodup
    rcases List.mem_cons.mp h with rfl | hmem
    · simp [lookupCount]
    · have hne : e.1 ≠ p := by
        intro hcontra
        exact hnodup.1 (hcontra ▸ (List.mem_map_of_mem Prod.fst hmem))
      simp only [lookupCount, if_neg hne]
      exact ih hnodup.2 hmem

theorem mem_of_lookupCount (L : List (String × Nat)) (k : String)
    (h : k ∈ L.map Prod.fst) : (k, lookupCount L k) ∈ L := by
  induction L with
  | nil => simp at h
  | cons e L ih =>
    by_cases he : e.1 = k
    · have helem : (k, lookupCount (e :: L) k) = e := by
        simp only [lookupCount, if_pos he]
        rw [← he]
      rw [helem]
      exact List.mem_cons_self e L
    · simp only [lookupCount, if_neg he]
      refine List.mem_cons_of_mem e (ih ?_)
      rw [List.map_cons, List.mem_cons] at h
      rcases h with h | h
      · exact absurd h.symm he
      · exact h

theorem head?_insertByCount (e : String × Nat) (M : List (String × Nat)) :
    (insertByCount e M).head? = some (match M.head? with
      | none => e
      | some y => if e.2 ≥ y.2 then e else y) := by
  cases M with
  | nil => simp [insertByCount]
  | cons y ys =>
    unfold insertByCount
    by_cases h : e.2 ≥ y.2
    · rw [if_pos h]
      simp [h]
    · rw [if_neg h]
      simp [h]

theorem head?_sortByCountDesc (L : List (String × Nat)) :
    (sortByCountDesc L).head? = firstMax L := by
  induction L with
  | nil => rfl
  | cons e L ih =>
    unfold sortByCountDesc at ih ⊢
    rw [List.foldr_cons, head?_insertByCount, ih]
    conv_rhs => rw [firstMax]
    cases hm : firstMax L with
    | none => rfl
    | some m =>
      dsimp only
      by_cases h : e.2 ≥ m.2
      · rw [if_pos h, if_neg (not_lt.mpr h)]
      · rw [if_neg h, if_pos (lt_of_not_le h)]

theorem firstMax_eq_none (L : List (String × Nat)) :
    firstMax L = none ↔ L = [] := by
  cases L with
  | nil => simp [firstMax]
  | cons e es =>
    simp only [firstMax]
    cases h : firstMax es with
    | none => simp
    | some m =>
      dsimp only
      by_cases hge : m.2 > e.2 <;> simp [hge]

theorem firstMax_le (L : List (String × Nat)) (m : String × Nat)
    (h : firstMax L = some m) : ∀ x ∈ L, x.2 ≤ m.2 := by
  induction L generalizing m with
  | nil => simp [firstMax] at h
  | cons e es ih =>
    rw [firstMax] at h
    cases hm : firstMax es with
    | none =>
      rw [hm] at h
      dsimp only at h
      injection h with h
      subst h
      have hes : es = [] := (firstMax_eq_none es).mp hm
      subst hes
      simp
    | some m0 =>
      rw [hm] at h
      dsimp only at h
      by_cases hge : m0.2 > e.2
      · rw [if_pos hge] at h
        injection h with h
        subst h
        intro x hx
        rcases List.mem_cons.mp hx with rfl | hx
        · exact le_of_lt hge
        · exact ih m0 hm x hx
      · rw [if_neg hge] at h
        injection h with h
        subst h
        intro x hx
        rcases List.mem_cons.mp hx with rfl | hx
        · exact le_refl _
        · exact le_trans (ih m0 hm x hx) (not_lt.mp hge)

theorem firstMax_split (L : List (String × Nat)) (p : String) (c : Nat)
    (h : firstMax L = some (p, c)) :
    ∃ L1 L2, L = L1 ++ (p, c) :: L2 ∧ ∀ x ∈ L1, x.2 < c := by
  induction L with
  | nil => simp [firstMax] at h
  | cons e es ih =>
    rw [firstMax] at h
    cases hm : firstMax es with
    | none =>
      rw [hm] at h
      dsimp only at h
      injection h with h
      exact ⟨[], es, by rw [h, List.nil_append], by simp⟩
    | some m0 =>
      rw [hm] at h
      dsimp only at h
      by_cases hge : m0.2 > e.2
      · rw [if_pos hge] at h
        injection h with h
        subst h
        obtain ⟨L1, L2, heq, hlt⟩ := ih hm
        refine ⟨e :: L1, L2, by rw [heq, List.cons_append], ?_⟩
        intro x hx
        rcases List.mem_cons.mp hx with rfl | hx
        · exact hge
        · exact hlt x hx
      · rw [if_neg hge] at h
        injection h with h
        exact ⟨[], es, by rw [h, List.nil_append], by simp⟩

theorem primaryEntry_spec (domains : List String) (p : String) (c : Nat)
    (h : primaryEntry domains = some (p, c)) :
    p ∈ domains ∧ c = domains.count p ∧
    (∀ d ∈ domains, domains.count d ≤ c) ∧
    (∀ d ∈ domains, domains.count d = c →
      domains.indexOf p ≤ domains.indexOf d) := by
  unfold primaryEntry at h
  rw [head?_sortByCountDesc] at h
  obtain ⟨L1, L2, heq, hlt⟩ := firstMax_split _ _ _ h
  have hmem_entry : (p, c) ∈ domainCounts domains := by
    rw [heq]
    exact List.mem_append_right _ (List.mem_cons_self _ _)
  have hp_keys : p ∈ (domainCounts domains).map Prod.fst :=
    List.mem_map_of_mem Prod.fst hmem_entry
  have hp_mem : p ∈ domains := (domainCounts_keys_mem domains p).mp hp_keys
  have hc : c = domains.count p := by
    rw [← domainCounts_lookup domains p]
    exact (lookupCount_of_mem_nodup _ (domainCounts_keys_nodup domains) p c
      hmem_entry).symm
  refine ⟨hp_mem, hc, ?_, ?_⟩
  · intro d hd
    have hdk : d ∈ (domainCounts domains).map Prod.fst :=
      (domainCounts_keys_mem domains d).mpr hd
    have hde : (d, lookupCount (domainCounts domains) d) ∈
        domainCounts domains := mem_of_lookupCount _ _ hdk
    have := firstMax_le _ _ h _ hde
    dsimp only at this
    rw [domainCounts_lookup] at this
    exact this
  · intro d hd hdc
    have hdk : d ∈ (domainCounts domains).map Prod.fst :=
      (domainCounts_keys_mem domains d).mpr hd
    have hde : (d, domains.count d) ∈ domainCounts domains := by
      have := mem_of_lookupCount _ _ hdk
      rw [domainCounts_lookup] at this
      exact this
    rw [hdc] at hde
    rw [heq] at hde
    rcases List.mem_append.mp hde with hdl1 | hdcons
    · exact absurd rfl (ne_of_lt (hlt _ hdl1))
    · rcases List.mem_cons.mp hdcons with hdp | hdl2
      · have : d = p := congrArg Prod.fst hdp
        rw [this]
      · have hpair := domainCounts_keys_pairwise domains
        rw [heq, List.map_append, List.map_cons] at hpair
        have hx := (List.pairwise_append.mp hpair).2.1
        rw [List.pairwise_cons] at hx
        exact le_of_lt (hx.1 d (List.mem_map_of_mem Prod.fst hdl2))

/-- C5: the domain heuristic never keeps a deny-listed domain; the primary
entry is a most frequent remaining domain whose count is its number of
occurrences, ties broken by first-seen order; the returned confidence is
min(0.9, count of primary / number of external attendee domains + 0.3) and
the suggestions are the other observed external domain occurrences; in
particular a gmail.com plus acme.com attendee list resolves acme.com. -/
theorem domainHeuristic_spec :
    (∀ (attendees : List Attendee) (d : String),
      d ∈ extractExternalDomains attendees → lowerStr d ∉ internalDomains) ∧
    (∀ (domains : List String) (p : String) (c : Nat),
      primaryEntry domains = some (p, c) →
      p ∈ domains ∧ c = domains.count p ∧
      (∀ d ∈ domains, domains.count d ≤ c) ∧
      (∀ d ∈ domains, domains.count d = c →
        domains.indexOf p ≤ domains.indexOf d)) ∧
    (∀ (s s2 : RepoState) (t : Transcript) (p : String) (c : Nat)
        (r : AccountAssociationResult),
      primaryEntry (extractExternalDomains t.metadata.attendees) = some (p, c) →
      applyDomainBasedAssociation s t = (some r, s2) →
      r.confidence = min (9/10) ((c : ℚ) /
        ((extractExternalDomains t.metadata.attendees).length : ℚ) + 3/10) ∧
      r.suggestions = some
        ((extractExternalDomains t.metadata.attendees).filter
          (fun d => d ≠ p))) ∧
    primaryEntry (extractExternalDomains
      [mkAtt "a@gmail.com", mkAtt "b@acme.com"]) = some ("acme.com", 1) := by
  refine ⟨?_, fun domains p c h => primaryEntry_spec domains p c h, ?_, by decide⟩
  · intro attendees d hd
    unfold extractExternalDomains at hd
    obtain ⟨a, ha, hfa⟩ := List.mem_filterMap.mp hd
    cases he : emailDomain a.email with
    | none =>
      rw [he] at hfa
      exact absurd hfa (by simp)
    | some d0 =>
      rw [he] at hfa
      dsimp only at hfa
      split at hfa
      · exact absurd hfa (by simp)
      · split at hfa
        next hcontains => exact absurd hfa (by simp)
        next hcontains =>
          injection hfa with hfa
          subst hfa
          intro hmem
          exact hcontains (by simpa using hmem)
  · intro s s2 t p c r hpe hrun
    rw [applyDomainBasedAssociation_spec s t p c hpe] at hrun
    cases hacc : getAccountByDomain s p with
    | some account =>
      rw [hacc] at hrun
      dsimp only at hrun
      injection hrun with h1 h2
      injection h1 with h1
      exact ⟨by rw [← h1], by rw [← h1]⟩
    | none =>
      rw [hacc] at hrun
      dsimp only at hrun
      injection hrun with h1 h2
      injection h1 with h1
      exact ⟨by rw [← h1], by rw [← h1]⟩

/-- C5 witness: exclusion at acme.com, the tie-broken primary of a concrete
occurrence list, and the confidence and suggestions of a concrete run. -/
theorem domainHeuristic_spec_witness :
    lowerStr "acme.com" ∉ internalDomains ∧
    "b.com" ∈ exTieDomains ∧
    2 = exTieDomains.count "b.com" ∧
    exAcmeResult.confidence = min (9/10) (((1 : Nat) : ℚ) /
      ((extractExternalDomains
        exTranscriptGmailAcme.metadata.attendees).length : ℚ) + 3/10) ∧
    exAcmeResult.suggestions = some
      ((extractExternalDomains exTranscriptGmailAcme.metadata.attendees).filter
        (fun d => d ≠ "acme.com")) := by
  have hthm := domainHeuristic_spec
  have h1 := hthm.1 [mkAtt "b@acme.com"] "acme.com" (by decide)
  have h2 := hthm.2.1 exTieDomains "b.com" 2 (by decide)
  have hpe : primaryEntry
      (extractExternalDomains exTranscriptGmailAcme.metadata.attendees) =
      some ("acme.com", 1) := by decide
  have hacc0 : getAccountByDomain exRepoEmpty "acme.com" = none := by decide
  have hrun : applyDomainBasedAssociation exRepoEmpty exTranscriptGmailAcme =
      (some exAcmeResult, exRepoAfterAcme) := by
    rw [applyDomainBasedAssociation_spec _ _ "acme.com" 1 hpe, hacc0]
    dsimp only
    rw [Prod.mk.injEq, Option.some.injEq]
    refine ⟨?_, by decide⟩
    simp only [exAcmeResult]
    rw [AccountAssociationResult.mk.injEq]
    refine ⟨by decide, ?_, by decide, by decide⟩
    rw [show (extractExternalDomains
      exTranscriptGmailAcme.metadata.attendees).length = 1 from by decide]
    norm_num
  have h3 := hthm.2.2.1 exRepoEmpty exRepoAfterAcme exTranscriptGmailAcme
    "acme.com" 1 exAcmeResult hpe hrun
  exact ⟨h1, h2.1, h2.2.1, h3.1, h3.2⟩

end CallTranscripts
